import Mathlib

/-! TM1637 bit-banged display driver (ATmega2560)

A shallow embedding of `tm1637_display_usart_control.c`: the open-drain GPIO
helpers, the start/stop/byte protocol routines, the segment table, the display
transaction, the USART receive interrupt handler and the ASCII-to-integer
conversion of the main loop; and, in namespace `Demo`, of the driver copy in
`tm1637_led_bit_banging.c`.

Registers are 8-bit values kept as `Nat` with an explicit `% 256` at every
store; `uint16_t` arithmetic is reduced `% 65536`.  Every volatile register
access and every busy-wait delay is appended to a chronological trace, so that
orderings on the two bus lines can be stated and proved.
-/

namespace TM1637

/-! ## Machine model -/

/-- Memory-mapped I/O registers of the ATmega2560 that the firmware could touch
on port F and USART0. -/
inductive Reg
  | DDRF
  | PORTF
  | PINF
  | UCSR0A
  | UDR0
  deriving DecidableEq, Repr

/-- Observable actions of the firmware: volatile register reads and writes and
calls of the busy-wait `_delay_us`. -/
inductive Event
  | read (r : Reg)
  | write (r : Reg) (v : Nat)
  | delay_us (us : Nat)
  deriving DecidableEq, Repr

/-- Program state: the two port F registers used by the driver, the values the
pin input register `PINF` would return on successive reads (they are decided by
whatever else sits on the bus, such as the acknowledging TM1637), the file-scope
variables `buffer[5]`, `count`, `numberReady`, and the trace of actions so far. -/
structure State where
  DDRF : Nat
  PORTF : Nat
  PINF : List Nat
  buffer : List Nat
  count : Nat
  numberReady : Nat
  trace : List Event
  deriving DecidableEq, Repr

/-- Bit number of `PF0` in `<avr/io.h>`. -/
def PF0 : Nat := 0

/-- Bit number of `PF1` in `<avr/io.h>`. -/
def PF1 : Nat := 1

/-- Source macro `#define CLK_PIN PF1`. -/
def CLK_PIN : Nat := PF1

/-- Source macro `#define DIO_PIN PF0`. -/
def DIO_PIN : Nat := PF0

/-- C `~x` for a 16-bit `int` operand, as a bit pattern. -/
def not16 (x : Nat) : Nat := 0xFFFF ^^^ x

/-- Value stored by `R &= ~(1 << pin)` into an 8-bit register holding `r`. -/
def andNotBit (r pin : Nat) : Nat := (r &&& not16 (1 <<< pin)) % 256

/-- Value stored by `R |= (1 << pin)` into an 8-bit register holding `r`. -/
def orBit (r pin : Nat) : Nat := (r ||| (1 <<< pin)) % 256

/-- Read-modify-write of `DDRF` (both `CLK_DDR` and `DIO_DDR` name it). -/
def rmw_DDRF (f : Nat → Nat) (s : State) : State :=
  { s with DDRF := f s.DDRF,
           trace := s.trace ++ [Event.read Reg.DDRF, Event.write Reg.DDRF (f s.DDRF)] }

/-- Read-modify-write of `PORTF` (both `CLK_PORT` and `DIO_PORT` name it). -/
def rmw_PORTF (f : Nat → Nat) (s : State) : State :=
  { s with PORTF := f s.PORTF,
           trace := s.trace ++ [Event.read Reg.PORTF, Event.write Reg.PORTF (f s.PORTF)] }

/-- Busy-wait of `us` microseconds: no state change, one trace entry. -/
def _delay_us (us : Nat) (s : State) : State :=
  { s with trace := s.trace ++ [Event.delay_us us] }

/-! ## GPIO control functions -/

/-- Source `clk_high`: `CLK_DDR &= ~(1 << CLK_PIN)`. -/
def clk_high (s : State) : State :=
  rmw_DDRF (fun r => andNotBit r CLK_PIN) s

/-- Source `clk_low`: `CLK_DDR |= (1 << CLK_PIN); CLK_PORT &= ~(1 << CLK_PIN)`. -/
def clk_low (s : State) : State :=
  let s := rmw_DDRF (fun r => orBit r CLK_PIN) s
  rmw_PORTF (fun r => andNotBit r CLK_PIN) s

/-- Source `dio_high`: `DIO_DDR &= ~(1 << DIO_PIN)`. -/
def dio_high (s : State) : State :=
  rmw_DDRF (fun r => andNotBit r DIO_PIN) s

/-- Source `dio_low`: `DIO_DDR |= (1 << DIO_PIN); DIO_PORT &= ~(1 << DIO_PIN)`. -/
def dio_low (s : State) : State :=
  let s := rmw_DDRF (fun r => orBit r DIO_PIN) s
  rmw_PORTF (fun r => andNotBit r DIO_PIN) s

/-! ## TM1637 protocol control -/

/-- Source `tm_start`: release data and clock, wait, pull data low (START), wait,
pull clock low. -/
def tm_start (s : State) : State :=
  let s := dio_high s
  let s := clk_high s
  let s := _delay_us 10 s
  let s := dio_low s
  let s := _delay_us 10 s
  clk_low s

/-- Source `tm_stop`: pull clock low, wait, pull data low, wait, release clock,
wait, release data (STOP). -/
def tm_stop (s : State) : State :=
  let s := clk_low s
  let s := _delay_us 10 s
  let s := dio_low s
  let s := _delay_us 10 s
  let s := clk_high s
  let s := _delay_us 10 s
  dio_high s

/-- One pass through the body of the `for` loop of `tm_writeByte`; returns the
shifted byte (stored back into the 8-bit `b`) and the new state. -/
def tm_writeByte_body (b : Nat) (s : State) : Nat × State :=
  let s := clk_low s
  let s := if b &&& 0x01 ≠ 0 then dio_high s else dio_low s
  let s := _delay_us 10 s
  let s := clk_high s
  let s := _delay_us 10 s
  ((b >>> 1) % 256, s)

/-- The `for (i = 0; i < 8; i++)` loop of `tm_writeByte`, with `k` passes left. -/
def tm_writeByte_loop : Nat → Nat → State → Nat × State
  | 0, b, s => (b, s)
  | k + 1, b, s =>
    let r := tm_writeByte_body b s
    tm_writeByte_loop k r.1 r.2

/-- Source `tm_writeByte`: eight data bits, then the acknowledge clock whose data-line
value is never read. -/
def tm_writeByte (b : Nat) (s : State) : State :=
  let s := (tm_writeByte_loop 8 b s).2
  let s := clk_low s
  let s := dio_high s
  let s := _delay_us 10 s
  let s := clk_high s
  let s := _delay_us 10 s
  clk_low s

/-! ## USART helpers and the receive interrupt -/

/-- Source `writeChar`: polls `UCSR0A` until `UDRE0` is set, then stores `x` in `UDR0`.
The transmitter is hardware outside the program; `polls` is the number of reads
that found the flag clear before the read that found it set. -/
def writeChar (x : Nat) (polls : Nat) (s : State) : State :=
  { s with trace := s.trace ++ List.replicate (polls + 1) (Event.read Reg.UCSR0A)
                      ++ [Event.write Reg.UDR0 x] }

/-- Source `ISR(USART0_RX_vect)`: `udr0` is the byte read from `UDR0`; `'0'` is 48 and
`'9'` is 57.  Bytes above 127 fail the digit test whether `char` is signed or
not, so the byte value stands for `c`. -/
def ISR_USART0_RX (udr0 polls : Nat) (s : State) : State :=
  let s := { s with trace := s.trace ++ [Event.read Reg.UDR0] }
  let c := udr0
  if 48 ≤ c ∧ c ≤ 57 ∧ s.count < 4 then
    let s := { s with buffer := s.buffer.set s.count c, count := (s.count + 1) % 256 }
    let s := writeChar c polls s
    if s.count = 4 then
      { s with buffer := s.buffer.set 4 0, numberReady := 1 }
    else s
  else s

/-! ## Segment table and display transaction -/

/-- Source table `SEGMENTS[]`, entries for the digits 0 to 9. -/
def SEGMENTS : List Nat :=
  [0b00111111, 0b00000110, 0b01011011, 0b01001111, 0b01100110,
   0b01101101, 0b01111101, 0b00000111, 0b01111111, 0b01101111]

/-- Source local `uint8_t d0 = (num / 1000) % 10;`. -/
def d0 (num : Nat) : Nat := (num / 1000) % 10 % 256

/-- Source local `uint8_t d1 = (num / 100) % 10;`. -/
def d1 (num : Nat) : Nat := (num / 100) % 10 % 256

/-- Source local `uint8_t d2 = (num / 10) % 10;`. -/
def d2 (num : Nat) : Nat := (num / 10) % 10 % 256

/-- Source local `uint8_t d3 = num % 10;`. -/
def d3 (num : Nat) : Nat := num % 10 % 256

/-- Source `tm_displayDigits(uint16_t num)`.  A table index outside `SEGMENTS` is
undefined behaviour in C and yields `none` here. -/
def tm_displayDigits (num : Nat) (s : State) : Option State := do
  let s := tm_start s
  let s := tm_writeByte 0x40 s
  let s := tm_stop s
  let s := tm_start s
  let s := tm_writeByte 0xC0 s
  let p0 ← SEGMENTS[d0 num]?
  let s := tm_writeByte p0 s
  let p1 ← SEGMENTS[d1 num]?
  let s := tm_writeByte p1 s
  let p2 ← SEGMENTS[d2 num]?
  let s := tm_writeByte p2 s
  let p3 ← SEGMENTS[d3 num]?
  let s := tm_writeByte p3 s
  let s := tm_stop s
  let s := tm_start s
  let s := tm_writeByte (0x88 ||| 0x07) s
  pure (tm_stop s)

/-! ## Main program fragments -/

/-- Power-on state: port F registers at their reset value 0, zero-initialised
globals, empty trace. -/
def reset : State :=
  { DDRF := 0, PORTF := 0, PINF := [], buffer := [0, 0, 0, 0, 0], count := 0, numberReady := 0,
    trace := [] }

/-- First two statements of `main`: `CLK_DDR |= (1 << CLK_PIN); DIO_DDR |= (1 << DIO_PIN);`. -/
def main_init (s : State) : State :=
  let s := rmw_DDRF (fun r => orBit r CLK_PIN) s
  rmw_DDRF (fun r => orBit r DIO_PIN) s

/-- One pass of the conversion loop in `main`:
`number = number * 10 + (buffer[i] - '0')` in 16-bit unsigned arithmetic.  The
buffer holds ASCII codes; the subtraction is done in `int`. -/
def main_number_step (buffer : List Nat) (number i : Nat) : Nat :=
  (((number : Int) * 10 + ((buffer.getD i 0 : Int) - 48)) % 65536).toNat

/-- The conversion loop `for (i = 0; i < 4; i++)` of `main`, from `number = 0`. -/
def main_number (buffer : List Nat) : Nat :=
  [0, 1, 2, 3].foldl (main_number_step buffer) 0

/-! ## Observation of the port and of the two bus lines

The definitions below are not firmware code: they read a trace the way a probe
on the CLK and DIO pins would, so that statements about line levels, edges and
START/STOP conditions can be written down. -/

/-- Contents of the two port F registers. -/
structure Regs where
  DDRF : Nat
  PORTF : Nat
  deriving DecidableEq, Repr

/-- Port F registers of a program state. -/
def State.regs (s : State) : Regs := { DDRF := s.DDRF, PORTF := s.PORTF }

/-- Effect of one traced action on the port F registers. -/
def Event.apply (r : Regs) : Event → Regs
  | Event.write Reg.DDRF v => { r with DDRF := v }
  | Event.write Reg.PORTF v => { r with PORTF := v }
  | _ => r

/-- Register contents just before and just after each action of a trace that
starts from registers `r`. -/
def transitions : Regs → List Event → List (Regs × Regs)
  | _, [] => []
  | r, e :: es => (r, e.apply r) :: transitions (e.apply r) es

/-- Register contents after each action of a trace in turn. -/
def statesAfter (r : Regs) (es : List Event) : List Regs :=
  (transitions r es).map Prod.snd

/-- Actions appended to the trace between state `s` and a later state `t`. -/
def eventsSince (s t : State) : List Event := t.trace.drop s.trace.length

/-- The pin is an input: the line floats high through the pull-up. -/
def released (pin : Nat) (r : Regs) : Bool := !r.DDRF.testBit pin

/-- The pin is an output driving 0. -/
def assertedLow (pin : Nat) (r : Regs) : Bool := r.DDRF.testBit pin && !r.PORTF.testBit pin

/-- The pin is an output driving 1, the configuration an open-drain bus forbids. -/
def outputHigh (pin : Nat) (r : Regs) : Bool := r.DDRF.testBit pin && r.PORTF.testBit pin

/-- The action takes the clock line from held low to released. -/
def clkRising (t : Regs × Regs) : Bool :=
  !released CLK_PIN t.1 && released CLK_PIN t.2

/-- START condition: the data line falls while the clock line stays released. -/
def isStart (t : Regs × Regs) : Bool :=
  released CLK_PIN t.1 && released CLK_PIN t.2 && released DIO_PIN t.1 && !released DIO_PIN t.2

/-- STOP condition: the data line rises while the clock line stays released. -/
def isStop (t : Regs × Regs) : Bool :=
  released CLK_PIN t.1 && released CLK_PIN t.2 && !released DIO_PIN t.1 && released DIO_PIN t.2

/-- Register contents at each rising edge of the clock line, in order. -/
def clockRisingStates (r : Regs) (es : List Event) : List Regs :=
  ((transitions r es).filter clkRising).map Prod.snd

/-- Frame scanner: `cur` counts the clock rising edges seen since the last
START (`none` outside a frame); each STOP that closes a frame emits its count. -/
def scanFrames : Option Nat → List (Regs × Regs) → List Nat
  | _, [] => []
  | cur, t :: ts =>
    if isStart t then scanFrames (some 0) ts
    else if isStop t then
      match cur with
      | some k => k :: scanFrames none ts
      | none => scanFrames none ts
    else if clkRising t then scanFrames (cur.map (· + 1)) ts
    else scanFrames cur ts

/-- Number of clock rising edges inside each START..STOP frame of a trace. -/
def frameClockEdges (r : Regs) (es : List Event) : List Nat :=
  scanFrames none (transitions r es)

/-! ## Sequences of driver calls -/

/-- A call of one of the driver routines, with its argument. -/
inductive Op
  | clkHigh
  | clkLow
  | dioHigh
  | dioLow
  | start
  | stop
  | writeByte (b : Nat)
  | displayDigits (num : Nat)
  deriving DecidableEq, Repr

/-- Run one driver call. -/
def Op.run : Op → State → Option State
  | Op.clkHigh, s => some (clk_high s)
  | Op.clkLow, s => some (clk_low s)
  | Op.dioHigh, s => some (dio_high s)
  | Op.dioLow, s => some (dio_low s)
  | Op.start, s => some (tm_start s)
  | Op.stop, s => some (tm_stop s)
  | Op.writeByte b, s => some (tm_writeByte b s)
  | Op.displayDigits num, s => tm_displayDigits num s

/-- Run driver calls one after the other. -/
def runOps : List Op → State → Option State
  | [], s => some s
  | op :: ops, s => (op.run s).bind (runOps ops)

/-! ## Sequences of received characters -/

/-- The test `c >= 48 && c <= 57` of the interrupt handler. -/
def isDigitChar (c : Nat) : Bool := decide (48 ≤ c) && decide (c ≤ 57)

/-- The handler run once per received byte, in arrival order; each byte comes
with the poll count of its echo. -/
def receive (cs : List (Nat × Nat)) (s : State) : State :=
  cs.foldl (fun st c => ISR_USART0_RX c.1 c.2 st) s

/-- The digit characters among the received bytes, in arrival order. -/
def digitsOf (cs : List (Nat × Nat)) : List Nat :=
  (cs.map Prod.fst).filter isDigitChar

/-! ## Seven-segment glyphs -/

/-- The seven segments of a digit position. -/
inductive Seg
  | a
  | b
  | c
  | d
  | e
  | f
  | g
  deriving DecidableEq, Repr

/-- All seven segments. -/
def Seg.all : List Seg := [Seg.a, Seg.b, Seg.c, Seg.d, Seg.e, Seg.f, Seg.g]

/-- Segments lit in the standard seven-segment glyph of a decimal digit. -/
def standardGlyph : Nat → List Seg
  | 0 => [Seg.a, Seg.b, Seg.c, Seg.d, Seg.e, Seg.f]
  | 1 => [Seg.b, Seg.c]
  | 2 => [Seg.a, Seg.b, Seg.d, Seg.e, Seg.g]
  | 3 => [Seg.a, Seg.b, Seg.c, Seg.d, Seg.g]
  | 4 => [Seg.b, Seg.c, Seg.f, Seg.g]
  | 5 => [Seg.a, Seg.c, Seg.d, Seg.f, Seg.g]
  | 6 => [Seg.a, Seg.c, Seg.d, Seg.e, Seg.f, Seg.g]
  | 7 => [Seg.a, Seg.b, Seg.c]
  | 8 => [Seg.a, Seg.b, Seg.c, Seg.d, Seg.e, Seg.f, Seg.g]
  | 9 => [Seg.a, Seg.b, Seg.c, Seg.d, Seg.f, Seg.g]
  | _ => []

/-- A way of reading a pattern byte: the bit of the decimal point and the bit
of each segment. -/
structure Layout where
  dp : Nat
  seg : Seg → Nat

/-- Layout written in the closing comment of the source file and in the data
model: bit 0 is the decimal point, bits 1..7 are segments a..g. -/
def commentLayout : Layout :=
  { dp := 0,
    seg := fun x => match x with
      | Seg.a => 1 | Seg.b => 2 | Seg.c => 3 | Seg.d => 4
      | Seg.e => 5 | Seg.f => 6 | Seg.g => 7 }

/-- Layout of the TM1637 display register, announced above the table as
"bits: a-g + dp": bits 0..6 are segments a..g, bit 7 is the decimal point. -/
def tableLayout : Layout :=
  { dp := 7,
    seg := fun x => match x with
      | Seg.a => 0 | Seg.b => 1 | Seg.c => 2 | Seg.d => 3
      | Seg.e => 4 | Seg.f => 5 | Seg.g => 6 }

/-- Under layout `l`, pattern `p` has the decimal point off and lights exactly
the segments of the standard glyph of digit `d`. -/
def showsGlyph (l : Layout) (d p : Nat) : Bool :=
  !p.testBit l.dp && Seg.all.all (fun x => p.testBit (l.seg x) == decide (x ∈ standardGlyph d))

/-! ## Proof vocabulary -/

/-- Both bus pins have their PORT bit clear. -/
def PortLow (r : Regs) : Prop := r.PORTF.testBit PF0 = false ∧ r.PORTF.testBit PF1 = false

/-- Routine `f` only appends to the trace, the appended writes account for its
register changes, and it keeps the PORT bits of the bus pins clear throughout. -/
def Tracked (f : State → Option State) : Prop :=
  ∀ s, ∃ t es, f s = some t ∧ t.trace = s.trace ++ es ∧ es.foldl Event.apply s.regs = t.regs ∧
    (PortLow s.regs → PortLow t.regs ∧ ∀ r ∈ statesAfter s.regs es, PortLow r)

/-- What the data line shows: released, and asserted low. -/
def dioView (r : Regs) : Bool × Bool := (released DIO_PIN r, assertedLow DIO_PIN r)

/-- Invariant of the receive variables after the digit characters `ds` have
arrived: five-byte buffer, `count` digits stored, flag raised from the fourth. -/
def RxInv (ds : List Nat) (st : State) : Prop :=
  st.buffer.length = 5 ∧ st.count = min 4 ds.length ∧
  st.numberReady = (if 4 ≤ ds.length then 1 else 0) ∧ st.buffer.take st.count = ds.take 4

/-! ## The fixed-demo driver `tm1637_led_bit_banging.c`

The second source file repeats the GPIO helpers, the protocol routines and the
segment table, and takes the four digits as separate arguments. -/

namespace Demo

/-- Source macro `#define CLK_PIN PF1` of the demo file. -/
def CLK_PIN : Nat := PF1

/-- Source macro `#define DIO_PIN PF0` of the demo file. -/
def DIO_PIN : Nat := PF0

/-- Demo copy of `clk_high`: `CLK_DDR &= ~(1 << CLK_PIN)`. -/
def clk_high (s : State) : State :=
  rmw_DDRF (fun r => andNotBit r CLK_PIN) s

/-- Demo copy of `clk_low`: `CLK_DDR |= (1 << CLK_PIN); CLK_PORT &= ~(1 << CLK_PIN)`. -/
def clk_low (s : State) : State :=
  let s := rmw_DDRF (fun r => orBit r CLK_PIN) s
  rmw_PORTF (fun r => andNotBit r CLK_PIN) s

/-- Demo copy of `dio_high`: `DIO_DDR &= ~(1 << DIO_PIN)`. -/
def dio_high (s : State) : State :=
  rmw_DDRF (fun r => andNotBit r DIO_PIN) s

/-- Demo copy of `dio_low`: `DIO_DDR |= (1 << DIO_PIN); DIO_PORT &= ~(1 << DIO_PIN)`. -/
def dio_low (s : State) : State :=
  let s := rmw_DDRF (fun r => orBit r DIO_PIN) s
  rmw_PORTF (fun r => andNotBit r DIO_PIN) s

/-- Demo copy of `tm_start`. -/
def tm_start (s : State) : State :=
  let s := dio_high s
  let s := clk_high s
  let s := _delay_us 10 s
  let s := dio_low s
  let s := _delay_us 10 s
  clk_low s

/-- Demo copy of `tm_stop`. -/
def tm_stop (s : State) : State :=
  let s := clk_low s
  let s := _delay_us 10 s
  let s := dio_low s
  let s := _delay_us 10 s
  let s := clk_high s
  let s := _delay_us 10 s
  dio_high s

/-- Demo copy of the body of the `for` loop of `tm_writeByte`. -/
def tm_writeByte_body (b : Nat) (s : State) : Nat × State :=
  let s := clk_low s
  let s := if b &&& 0x01 ≠ 0 then dio_high s else dio_low s
  let s := _delay_us 10 s
  let s := clk_high s
  let s := _delay_us 10 s
  ((b >>> 1) % 256, s)

/-- Demo copy of the `for (i = 0; i < 8; i++)` loop, with `k` passes left. -/
def tm_writeByte_loop : Nat → Nat → State → Nat × State
  | 0, b, s => (b, s)
  | k + 1, b, s =>
    let r := tm_writeByte_body b s
    tm_writeByte_loop k r.1 r.2

/-- Demo copy of `tm_writeByte`. -/
def tm_writeByte (b : Nat) (s : State) : State :=
  let s := (tm_writeByte_loop 8 b s).2
  let s := clk_low s
  let s := dio_high s
  let s := _delay_us 10 s
  let s := clk_high s
  let s := _delay_us 10 s
  clk_low s

/-- Demo copy of the table `SEGMENTS[]`. -/
def SEGMENTS : List Nat :=
  [0b00111111, 0b00000110, 0b01011011, 0b01001111, 0b01100110,
   0b01101101, 0b01111101, 0b00000111, 0b01111111, 0b01101111]

/-- Demo `tm_displayDigits(uint8_t d0, uint8_t d1, uint8_t d2, uint8_t d3)`.  A
digit outside the table is undefined behaviour in C and yields `none` here. -/
def tm_displayDigits (d0 d1 d2 d3 : Nat) (s : State) : Option State := do
  let s := tm_start s
  let s := tm_writeByte 0x40 s
  let s := tm_stop s
  let s := tm_start s
  let s := tm_writeByte 0xC0 s
  let p0 ← SEGMENTS[d0]?
  let s := tm_writeByte p0 s
  let p1 ← SEGMENTS[d1]?
  let s := tm_writeByte p1 s
  let p2 ← SEGMENTS[d2]?
  let s := tm_writeByte p2 s
  let p3 ← SEGMENTS[d3]?
  let s := tm_writeByte p3 s
  let s := tm_stop s
  let s := tm_start s
  let s := tm_writeByte (0x88 ||| 0x07) s
  pure (tm_stop s)

end Demo

/-! ## Pin operations as data

The byte transfer written out the way the protocol description words it, to be
compared with the routine translated from the source. -/

/-- One call of a GPIO helper, or one busy-wait. -/
inductive PinOp
  | clkLow
  | clkHigh
  | dioLow
  | dioHigh
  | delay (us : Nat)
  deriving DecidableEq, Repr

/-- Run one pin operation. -/
def PinOp.run : PinOp → State → State
  | PinOp.clkLow, s => clk_low s
  | PinOp.clkHigh, s => clk_high s
  | PinOp.dioLow, s => dio_low s
  | PinOp.dioHigh, s => dio_high s
  | PinOp.delay us, s => _delay_us us s

/-- Run pin operations one after the other. -/
def runPinOps (ops : List PinOp) (s : State) : State :=
  ops.foldl (fun st op => op.run st) s

/-- Described transfer of one data bit: clock low, data to the bit value
(released for 1, low for 0), wait, clock released, wait. -/
def bitOps (bit : Bool) : List PinOp :=
  [PinOp.clkLow, if bit then PinOp.dioHigh else PinOp.dioLow, PinOp.delay 10,
   PinOp.clkHigh, PinOp.delay 10]

/-- Described acknowledge slot: clock low, data released, wait, clock released,
wait, clock low. -/
def ackOps : List PinOp :=
  [PinOp.clkLow, PinOp.dioHigh, PinOp.delay 10, PinOp.clkHigh, PinOp.delay 10, PinOp.clkLow]

/-- Described transfer of byte `b`: bits 0 to 7 in that order, then the
acknowledge slot. -/
def writeByteOps (b : Nat) : List PinOp :=
  (List.range 8).flatMap (fun i => bitOps (b.testBit i)) ++ ackOps

/-- Pin operations of `tm_start`. -/
def startOps : List PinOp :=
  [PinOp.dioHigh, PinOp.clkHigh, PinOp.delay 10, PinOp.dioLow, PinOp.delay 10, PinOp.clkLow]

/-- Pin operations of `tm_stop`. -/
def stopOps : List PinOp :=
  [PinOp.clkLow, PinOp.delay 10, PinOp.dioLow, PinOp.delay 10, PinOp.clkHigh, PinOp.delay 10,
   PinOp.dioHigh]

/-- Pin operations of one START, bytes, STOP transaction. -/
def frameOps (bytes : List Nat) : List PinOp :=
  startOps ++ bytes.flatMap writeByteOps ++ stopOps

/-- Pin operations of the display transaction for the number `n`. -/
def displayOps (n : Nat) : List PinOp :=
  frameOps [0x40] ++
  frameOps [0xC0, SEGMENTS.getD (n / 1000 % 10) 0, SEGMENTS.getD (n / 100 % 10) 0,
    SEGMENTS.getD (n / 10 % 10) 0, SEGMENTS.getD (n % 10) 0] ++
  frameOps [0x8F]

/-- The trace entry of a busy-wait operation, `none` for a GPIO helper. -/
def PinOp.delayEvent : PinOp → Option Event
  | PinOp.delay us => some (Event.delay_us us)
  | _ => none

/-! ## Further observations of a trace -/

/-- The action is a busy-wait. -/
def isDelay : Event → Bool
  | Event.delay_us _ => true
  | _ => false

/-- The action is a busy-wait or an access to `DDRF` or `PORTF`; in particular
it is not a read of the pin input register. -/
def isPortAction : Event → Bool
  | Event.delay_us _ => true
  | Event.read Reg.DDRF => true
  | Event.read Reg.PORTF => true
  | Event.write Reg.DDRF _ => true
  | Event.write Reg.PORTF _ => true
  | _ => false

/-- The clock line has a different level in the two register contents. -/
def clkEdge (r t : Regs) : Bool := released CLK_PIN r != released CLK_PIN t

/-- Microseconds of busy-wait since the last clock edge, once the trace `es`
has run from registers `r` with count `cur` (`none` before the first edge). -/
def phaseCount : Option Nat → Regs → List Event → Option Nat
  | cur, _, [] => cur
  | cur, r, e :: es =>
    if clkEdge r (e.apply r) then phaseCount (some 0) (e.apply r) es
    else
      match e with
      | Event.delay_us n => phaseCount (cur.map (· + n)) (e.apply r) es
      | _ => phaseCount cur (e.apply r) es

/-- Lengths in microseconds of busy-wait of the clock phases of a trace: at
each clock edge the time waited since the previous edge is emitted. -/
def phaseScan : Option Nat → Regs → List Event → List Nat
  | _, _, [] => []
  | cur, r, e :: es =>
    if clkEdge r (e.apply r) then
      match cur with
      | some k => k :: phaseScan (some 0) (e.apply r) es
      | none => phaseScan (some 0) (e.apply r) es
    else
      match e with
      | Event.delay_us n => phaseScan (cur.map (· + n)) (e.apply r) es
      | _ => phaseScan cur (e.apply r) es

/-- Lengths of the clock phases that lie between two clock edges of the trace. -/
def clockPhases (r : Regs) (es : List Event) : List Nat := phaseScan none r es

/-- What a change of the data line means on the bus when the clock line is not
held low across it. -/
inductive BusCondition
  | start
  | stop
  | glitch
  deriving DecidableEq, Repr

/-- Classification of one action: `none` when the data line keeps its level or
changes while the clock line is held low before and after (ordinary data
set-up); otherwise START, STOP, or a glitch when the clock moves with it. -/
def dataEdge (t : Regs × Regs) : Option BusCondition :=
  if released DIO_PIN t.1 == released DIO_PIN t.2 then none
  else if !released CLK_PIN t.1 && !released CLK_PIN t.2 then none
  else if isStart t then some BusCondition.start
  else if isStop t then some BusCondition.stop
  else some BusCondition.glitch

/-- The changes of the data line that happen while the clock line is not held
low, in order. -/
def busConditions (r : Regs) (es : List Event) : List BusCondition :=
  (transitions r es).filterMap dataEdge

/-- The action changes the level of the data line while the clock line is
released before and after it. -/
def dataChangeClockHigh (t : Regs × Regs) : Bool :=
  (released DIO_PIN t.1 != released DIO_PIN t.2) &&
    released CLK_PIN t.1 && released CLK_PIN t.2

/-- The two states agree on bits 2 to 7 of `DDRF` and of `PORTF`. -/
def SameUpperBits (s t : State) : Prop :=
  ∀ i, 2 ≤ i → i < 8 →
    t.DDRF.testBit i = s.DDRF.testBit i ∧ t.PORTF.testBit i = s.PORTF.testBit i

/-- Routine `f` does not depend on the pin input values and leaves them alone. -/
def IgnoresPins (f : State → State) : Prop :=
  ∀ (s : State) (p : List Nat), f { s with PINF := p } = { f s with PINF := p }

/-! ## Bits on the wire -/

/-- Bits 0 to 7 of a byte, least significant first. -/
def bitsOf (b : Nat) : List Bool := (List.range 8).map (fun i => b.testBit i)

/-- Whether the data line is released (reads 1) at each rising edge of the
clock line: the bits a TM1637 latches from the trace. -/
def latchedBits (r : Regs) (es : List Event) : List Bool :=
  (clockRisingStates r es).map (released DIO_PIN)

/-- Pin operations of the four data bytes of the display transaction. -/
def dataOps (p0 p1 p2 p3 : Nat) : List PinOp :=
  writeByteOps p0 ++ (writeByteOps p1 ++ (writeByteOps p2 ++ writeByteOps p3))

/-- Calls of the display transaction with the four data bytes `p0`..`p3`. -/
def transactionCalls (p0 p1 p2 p3 : Nat) : List Op :=
  [Op.start, Op.writeByte 0x40, Op.stop,
   Op.start, Op.writeByte 0xC0,
   Op.writeByte p0, Op.writeByte p1, Op.writeByte p2, Op.writeByte p3, Op.stop,
   Op.start, Op.writeByte 0x8F, Op.stop]

/-! ## Register arithmetic -/

theorem testBit_orBit (r p i : Nat) :
    (orBit r p).testBit i = (decide (i < 8) && (r.testBit i || decide (p = i))) := by
  unfold orBit
  rw [show (256 : Nat) = 2 ^ 8 from rfl, Nat.testBit_mod_two_pow, Nat.testBit_or,
    Nat.one_shiftLeft, Nat.testBit_two_pow]

theorem testBit_andNotBit (r p i : Nat) :
    (andNotBit r p).testBit i = (decide (i < 8) && (r.testBit i && !decide (p = i))) := by
  unfold andNotBit not16
  rw [show (256 : Nat) = 2 ^ 8 from rfl, Nat.testBit_mod_two_pow, Nat.testBit_and,
    Nat.testBit_xor, Nat.one_shiftLeft, Nat.testBit_two_pow,
    show (0xFFFF : Nat) = 2 ^ 16 - 1 from rfl, Nat.testBit_two_pow_sub_one]
  by_cases h8 : i < 8
  · have h16 : i < 16 := by omega
    by_cases hp : p = i <;> simp [h8, h16, hp]
  · simp [h8]

/-! ## The display transaction -/

theorem SEGMENTS_lookup (d : Nat) (hd : d < 10) :
    SEGMENTS[d]? = some (SEGMENTS.getD d 0) := by
  have : d < SEGMENTS.length := by simpa [SEGMENTS] using hd
  simp [List.getD, List.getElem?_eq_getElem this]

theorem d0_eq (n : Nat) : d0 n = n / 1000 % 10 := by unfold d0; omega

theorem d1_eq (n : Nat) : d1 n = n / 100 % 10 := by unfold d1; omega

theorem d2_eq (n : Nat) : d2 n = n / 10 % 10 := by unfold d2; omega

theorem d3_eq (n : Nat) : d3 n = n % 10 := by unfold d3; omega

/-- The display transaction is the fixed chain of thirteen protocol calls. -/
theorem tm_displayDigits_eq (n : Nat) (s : State) :
    tm_displayDigits n s = runOps
      [Op.start, Op.writeByte 0x40, Op.stop,
       Op.start, Op.writeByte 0xC0,
       Op.writeByte (SEGMENTS.getD (n / 1000 % 10) 0),
       Op.writeByte (SEGMENTS.getD (n / 100 % 10) 0),
       Op.writeByte (SEGMENTS.getD (n / 10 % 10) 0),
       Op.writeByte (SEGMENTS.getD (n % 10) 0), Op.stop,
       Op.start, Op.writeByte 0x8F, Op.stop] s := by
  have h0 := SEGMENTS_lookup (n / 1000 % 10) (Nat.mod_lt _ (by decide))
  have h1 := SEGMENTS_lookup (n / 100 % 10) (Nat.mod_lt _ (by decide))
  have h2 := SEGMENTS_lookup (n / 10 % 10) (Nat.mod_lt _ (by decide))
  have h3 := SEGMENTS_lookup (n % 10) (Nat.mod_lt _ (by decide))
  simp only [tm_displayDigits, d0_eq, d1_eq, d2_eq, d3_eq, h0, h1, h2, h3, runOps, Op.run,
    Option.bind, bind, pure]
  rfl

theorem tm_displayDigits_isSome (n : Nat) (s : State) :
    (tm_displayDigits n s).isSome = true := by
  rw [tm_displayDigits_eq]
  simp [runOps, Op.run]

/-- C1: for every n in 0..9999 the display transaction run from any state is
exactly the call sequence start, write 0x40, stop; start, write 0xC0, write the
table entries of the thousands, hundreds, tens and units digit, stop; start,
write 0x8F, stop; it completes, and the final state (trace included) is the
one that sequence produces. -/
theorem tm_displayDigits_bus_sequence (n : Nat) (hn : n ≤ 9999) (s : State) :
    (tm_displayDigits n s).isSome = true ∧
    tm_displayDigits n s = runOps
      [Op.start, Op.writeByte 0x40, Op.stop,
       Op.start, Op.writeByte 0xC0,
       Op.writeByte (SEGMENTS.getD (n / 1000 % 10) 0),
       Op.writeByte (SEGMENTS.getD (n / 100 % 10) 0),
       Op.writeByte (SEGMENTS.getD (n / 10 % 10) 0),
       Op.writeByte (SEGMENTS.getD (n % 10) 0), Op.stop,
       Op.start, Op.writeByte (0x88 ||| 7), Op.stop] s :=
  have _ := hn
  ⟨tm_displayDigits_isSome n s, tm_displayDigits_eq n s⟩

/-- Witness of C1 at 1234 and 8888 from the state `main` sets up: the data
bytes are the patterns of 1, 2, 3, 4, and four times the pattern of 8. -/
theorem tm_displayDigits_bus_sequence_witness :
    (1234 ≤ 9999 ∧ 8888 ≤ 9999) ∧
    ((tm_displayDigits 1234 (main_init reset)).isSome = true ∧
     tm_displayDigits 1234 (main_init reset) = runOps
      [Op.start, Op.writeByte 0x40, Op.stop,
       Op.start, Op.writeByte 0xC0,
       Op.writeByte 0b00000110, Op.writeByte 0b01011011,
       Op.writeByte 0b01001111, Op.writeByte 0b01100110, Op.stop,
       Op.start, Op.writeByte 0x8F, Op.stop] (main_init reset)) ∧
    ((tm_displayDigits 8888 (main_init reset)).isSome = true ∧
     tm_displayDigits 8888 (main_init reset) = runOps
      [Op.start, Op.writeByte 0x40, Op.stop,
       Op.start, Op.writeByte 0xC0,
       Op.writeByte 0b01111111, Op.writeByte 0b01111111,
       Op.writeByte 0b01111111, Op.writeByte 0b01111111, Op.stop,
       Op.start, Op.writeByte 0x8F, Op.stop] (main_init reset)) :=
  ⟨⟨by decide, by decide⟩,
   tm_displayDigits_bus_sequence 1234 (by decide) (main_init reset),
   tm_displayDigits_bus_sequence 8888 (by decide) (main_init reset)⟩

/-- C3: for every n in 0..9999 the four digits computed by the display routine
are each at most 9 and re-join to n. -/
theorem digits_roundtrip (n : Nat) (hn : n ≤ 9999) :
    d0 n * 1000 + d1 n * 100 + d2 n * 10 + d3 n = n ∧
    d0 n ≤ 9 ∧ d1 n ≤ 9 ∧ d2 n ≤ 9 ∧ d3 n ≤ 9 := by
  rw [d0_eq, d1_eq, d2_eq, d3_eq]
  omega

/-- Witness of C3 at 1234 and at the upper bound 9999. -/
theorem digits_roundtrip_witness :
    (1234 ≤ 9999 ∧ d0 1234 = 1 ∧ d1 1234 = 2 ∧ d2 1234 = 3 ∧ d3 1234 = 4) ∧
    (d0 1234 * 1000 + d1 1234 * 100 + d2 1234 * 10 + d3 1234 = 1234 ∧
      d0 1234 ≤ 9 ∧ d1 1234 ≤ 9 ∧ d2 1234 ≤ 9 ∧ d3 1234 ≤ 9) ∧
    (d0 9999 * 1000 + d1 9999 * 100 + d2 9999 * 10 + d3 9999 = 9999 ∧
      d0 9999 ≤ 9 ∧ d1 9999 ≤ 9 ∧ d2 9999 ≤ 9 ∧ d3 9999 ≤ 9) :=
  ⟨by decide, digits_roundtrip 1234 (by decide), digits_roundtrip 9999 (by decide)⟩

/-- C9: for every 16-bit num the display routine computes the digits of
num mod 10000 and, from any state, completes with exactly the result (trace
included) it gives for num mod 10000. -/
theorem tm_displayDigits_truncates (num : Nat) (hnum : num < 65536) (s : State) :
    (tm_displayDigits num s).isSome = true ∧
    tm_displayDigits num s = tm_displayDigits (num % 10000) s ∧
    d0 num = d0 (num % 10000) ∧ d1 num = d1 (num % 10000) ∧
    d2 num = d2 (num % 10000) ∧ d3 num = d3 (num % 10000) := by
  have _ := hnum
  have e0 : num % 10000 / 1000 % 10 = num / 1000 % 10 := by omega
  have e1 : num % 10000 / 100 % 10 = num / 100 % 10 := by omega
  have e2 : num % 10000 / 10 % 10 = num / 10 % 10 := by omega
  have e3 : num % 10000 % 10 = num % 10 := by omega
  refine ⟨tm_displayDigits_isSome num s, ?_, ?_, ?_, ?_, ?_⟩
  · rw [tm_displayDigits_eq, tm_displayDigits_eq, e0, e1, e2, e3]
  · rw [d0_eq, d0_eq, e0]
  · rw [d1_eq, d1_eq, e1]
  · rw [d2_eq, d2_eq, e2]
  · rw [d3_eq, d3_eq, e3]

/-- Witness of C9 at 65535, whose low four decimal digits are 5535. -/
theorem tm_displayDigits_truncates_witness :
    (65535 < 65536 ∧ 65535 % 10000 = 5535 ∧ d0 65535 = 5 ∧ d3 65535 = 5) ∧
    ((tm_displayDigits 65535 (main_init reset)).isSome = true ∧
     tm_displayDigits 65535 (main_init reset) = tm_displayDigits (65535 % 10000) (main_init reset) ∧
     d0 65535 = d0 (65535 % 10000) ∧ d1 65535 = d1 (65535 % 10000) ∧
     d2 65535 = d2 (65535 % 10000) ∧ d3 65535 = d3 (65535 % 10000)) :=
  ⟨by decide, tm_displayDigits_truncates 65535 (by decide) (main_init reset)⟩

/-! ## The segment table -/

/-- C5 as stated fails: entry 0 of the table is 0b00111111, which under the
layout "bit 0 = decimal point, bits 1..7 = a..g" has the decimal point on and
segment f off, so it is not the glyph of 0. -/
theorem SEGMENTS_commentLayout_fails :
    SEGMENTS[0]? = some 0b00111111 ∧
    (0b00111111 : Nat).testBit commentLayout.dp = true ∧
    (0b00111111 : Nat).testBit (commentLayout.seg Seg.f) = false ∧
    showsGlyph commentLayout 0 0b00111111 = false := by
  decide

/-- C5 amended: read with bits 0..6 = segments a..g and bit 7 = decimal point,
every entry d in 0..9 of the table has the decimal point off and lights exactly
the segments of the standard glyph of d. -/
theorem SEGMENTS_tableLayout (d : Nat) (hd : d < 10) :
    ∃ p, SEGMENTS[d]? = some p ∧ showsGlyph tableLayout d p = true := by
  interval_cases d <;> exact ⟨_, rfl, by decide⟩

/-- Witness of the amended C5 at digit 4 (segments b, c, f, g). -/
theorem SEGMENTS_tableLayout_witness :
    (4 < 10 ∧ SEGMENTS[4]? = some 0b01100110 ∧ showsGlyph tableLayout 4 0b01100110 = true) ∧
    (∃ p, SEGMENTS[4]? = some p ∧ showsGlyph tableLayout 4 p = true) :=
  ⟨by decide, SEGMENTS_tableLayout 4 (by decide)⟩

/-! ## Start and stop conditions -/

/-- C7: from every register state, after `tm_start` both DDR bits are set and
both PORT bits are clear: clock and data are asserted low. -/
theorem tm_start_post (s : State) :
    (tm_start s).DDRF.testBit CLK_PIN = true ∧ (tm_start s).PORTF.testBit CLK_PIN = false ∧
    (tm_start s).DDRF.testBit DIO_PIN = true ∧ (tm_start s).PORTF.testBit DIO_PIN = false ∧
    assertedLow CLK_PIN (tm_start s).regs = true ∧ assertedLow DIO_PIN (tm_start s).regs = true := by
  simp [tm_start, clk_low, clk_high, dio_low, dio_high, _delay_us, rmw_DDRF, rmw_PORTF,
    assertedLow, State.regs, testBit_orBit, testBit_andNotBit, CLK_PIN, DIO_PIN, PF0, PF1,
    -Nat.testBit_zero]

/-! ## Traces of the driver routines -/

theorem transitions_append (r : Regs) (es1 es2 : List Event) :
    transitions r (es1 ++ es2) = transitions r es1 ++ transitions (es1.foldl Event.apply r) es2 := by
  induction es1 generalizing r with
  | nil => rfl
  | cons e es ih => simp [transitions, ih]

theorem statesAfter_append (r : Regs) (es1 es2 : List Event) :
    statesAfter r (es1 ++ es2) = statesAfter r es1 ++ statesAfter (es1.foldl Event.apply r) es2 := by
  simp [statesAfter, transitions_append]

theorem clockRisingStates_append (r : Regs) (es1 es2 : List Event) :
    clockRisingStates r (es1 ++ es2) =
      clockRisingStates r es1 ++ clockRisingStates (es1.foldl Event.apply r) es2 := by
  simp [clockRisingStates, transitions_append]

theorem eventsSince_append (s t : State) (es : List Event) (h : t.trace = s.trace ++ es) :
    eventsSince s t = es := by
  unfold eventsSince
  rw [h, List.drop_left]

theorem Tracked.bind {f g : State → Option State} (hf : Tracked f) (hg : Tracked g) :
    Tracked (fun s => (f s).bind g) := by
  intro s
  obtain ⟨t, es1, e1, tr1, rg1, p1⟩ := hf s
  obtain ⟨u, es2, e2, tr2, rg2, p2⟩ := hg t
  refine ⟨u, es1 ++ es2, by simp [e1, e2], by rw [tr2, tr1, List.append_assoc], ?_, ?_⟩
  · rw [List.foldl_append, rg1, rg2]
  · intro h
    obtain ⟨pt, ps1⟩ := p1 h
    obtain ⟨pu, ps2⟩ := p2 pt
    refine ⟨pu, ?_⟩
    intro r hr
    rw [statesAfter_append, List.mem_append, rg1] at hr
    exact hr.elim (ps1 r) (ps2 r)

theorem Tracked.chain (fs : List (State → State))
    (h : ∀ f ∈ fs, Tracked (fun s => some (f s))) :
    Tracked (fun s => some (fs.foldl (fun st f => f st) s)) := by
  induction fs using List.reverseRecOn with
  | nil =>
    intro s
    exact ⟨s, [], rfl, by simp, rfl, fun hp => ⟨hp, by simp [statesAfter, transitions]⟩⟩
  | append_singleton fs f ih =>
    have h1 := ih (fun g hg => h g (List.mem_append_left _ hg))
    have h2 := h f (by simp)
    have := Tracked.bind h1 h2
    simpa [List.foldl_append] using this

theorem Tracked.ite {f g : State → State} (c : Prop) [Decidable c]
    (hf : Tracked (fun s => some (f s))) (hg : Tracked (fun s => some (g s))) :
    Tracked (fun s => some (if c then f s else g s)) := by
  by_cases h : c
  · simpa [h] using hf
  · simpa [h] using hg

theorem tracked_rmw_DDRF (f : Nat → Nat) : Tracked (fun s => some (rmw_DDRF f s)) := by
  intro s
  refine ⟨_, [Event.read Reg.DDRF, Event.write Reg.DDRF (f s.DDRF)], rfl, rfl, rfl, ?_⟩
  intro h
  refine ⟨h, ?_⟩
  intro r hr
  simp [statesAfter, transitions, Event.apply] at hr
  rcases hr with rfl | rfl <;> exact h

theorem tracked_rmw_PORTF (p : Nat) : Tracked (fun s => some (rmw_PORTF (fun r => andNotBit r p) s)) := by
  intro s
  refine ⟨_, [Event.read Reg.PORTF, Event.write Reg.PORTF (andNotBit s.PORTF p)], rfl, rfl, rfl, ?_⟩
  intro h
  have h2 : PortLow { DDRF := s.DDRF, PORTF := andNotBit s.PORTF p } := by
    obtain ⟨a, b⟩ := h
    simp only [State.regs] at a b
    simp [PortLow, testBit_andNotBit, a, b, -Nat.testBit_zero]
  refine ⟨h2, ?_⟩
  intro r hr
  simp [statesAfter, transitions, Event.apply] at hr
  rcases hr with rfl | rfl
  · exact h
  · exact h2

theorem tracked_delay (us : Nat) : Tracked (fun s => some (_delay_us us s)) := by
  intro s
  refine ⟨_, [Event.delay_us us], rfl, rfl, rfl, ?_⟩
  intro h
  refine ⟨h, ?_⟩
  intro r hr
  simp [statesAfter, transitions, Event.apply] at hr
  subst hr
  exact h

theorem tracked_clk_high : Tracked (fun s => some (clk_high s)) := tracked_rmw_DDRF _

theorem tracked_dio_high : Tracked (fun s => some (dio_high s)) := tracked_rmw_DDRF _

theorem tracked_clk_low : Tracked (fun s => some (clk_low s)) :=
  Tracked.chain [rmw_DDRF (fun r => orBit r CLK_PIN), rmw_PORTF (fun r => andNotBit r CLK_PIN)]
    (by
      intro f hf
      simp only [List.mem_cons, List.mem_singleton, List.not_mem_nil, or_false] at hf
      rcases hf with rfl | rfl
      · exact tracked_rmw_DDRF _
      · exact tracked_rmw_PORTF _)

theorem tracked_dio_low : Tracked (fun s => some (dio_low s)) :=
  Tracked.chain [rmw_DDRF (fun r => orBit r DIO_PIN), rmw_PORTF (fun r => andNotBit r DIO_PIN)]
    (by
      intro f hf
      simp only [List.mem_cons, List.mem_singleton, List.not_mem_nil, or_false] at hf
      rcases hf with rfl | rfl
      · exact tracked_rmw_DDRF _
      · exact tracked_rmw_PORTF _)

theorem tracked_tm_start : Tracked (fun s => some (tm_start s)) :=
  Tracked.chain [dio_high, clk_high, _delay_us 10, dio_low, _delay_us 10, clk_low]
    (by
      intro f hf
      simp only [List.mem_cons, List.mem_singleton, List.not_mem_nil, or_false] at hf
      rcases hf with rfl | rfl | rfl | rfl | rfl | rfl
      · exact tracked_dio_high
      · exact tracked_clk_high
      · exact tracked_delay 10
      · exact tracked_dio_low
      · exact tracked_delay 10
      · exact tracked_clk_low)

theorem tracked_tm_stop : Tracked (fun s => some (tm_stop s)) :=
  Tracked.chain [clk_low, _delay_us 10, dio_low, _delay_us 10, clk_high, _delay_us 10, dio_high]
    (by
      intro f hf
      simp only [List.mem_cons, List.mem_singleton, List.not_mem_nil, or_false] at hf
      rcases hf with rfl | rfl | rfl | rfl | rfl | rfl | rfl
      · exact tracked_clk_low
      · exact tracked_delay 10
      · exact tracked_dio_low
      · exact tracked_delay 10
      · exact tracked_clk_high
      · exact tracked_delay 10
      · exact tracked_dio_high)

theorem tracked_body (b : Nat) : Tracked (fun s => some (tm_writeByte_body b s).2) :=
  Tracked.chain [clk_low, fun s => if b &&& 0x01 ≠ 0 then dio_high s else dio_low s,
      _delay_us 10, clk_high, _delay_us 10]
    (by
      intro f hf
      simp only [List.mem_cons, List.mem_singleton, List.not_mem_nil, or_false] at hf
      rcases hf with rfl | rfl | rfl | rfl | rfl
      · exact tracked_clk_low
      · exact Tracked.ite _ tracked_dio_high tracked_dio_low
      · exact tracked_delay 10
      · exact tracked_clk_high
      · exact tracked_delay 10)

theorem tracked_loop (k : Nat) : ∀ b, Tracked (fun s => some (tm_writeByte_loop k b s).2) := by
  induction k with
  | zero =>
    intro b s
    exact ⟨s, [], rfl, by simp, rfl, fun h => ⟨h, by simp [statesAfter, transitions]⟩⟩
  | succ k ih =>
    intro b
    exact Tracked.bind (tracked_body b) (ih ((b >>> 1) % 256))

theorem tracked_tm_writeByte (b : Nat) : Tracked (fun s => some (tm_writeByte b s)) :=
  Tracked.chain [fun s => (tm_writeByte_loop 8 b s).2, clk_low, dio_high, _delay_us 10, clk_high,
      _delay_us 10, clk_low]
    (by
      intro f hf
      simp only [List.mem_cons, List.mem_singleton, List.not_mem_nil, or_false] at hf
      rcases hf with rfl | rfl | rfl | rfl | rfl | rfl | rfl
      · exact tracked_loop 8 b
      · exact tracked_clk_low
      · exact tracked_dio_high
      · exact tracked_delay 10
      · exact tracked_clk_high
      · exact tracked_delay 10
      · exact tracked_clk_low)

theorem tracked_simple_op (op : Op) (h : ∀ n, op ≠ Op.displayDigits n) : Tracked op.run := by
  cases op with
  | clkHigh => exact tracked_clk_high
  | clkLow => exact tracked_clk_low
  | dioHigh => exact tracked_dio_high
  | dioLow => exact tracked_dio_low
  | start => exact tracked_tm_start
  | stop => exact tracked_tm_stop
  | writeByte b => exact tracked_tm_writeByte b
  | displayDigits n => exact absurd rfl (h n)

theorem tracked_runOps (ops : List Op) (h : ∀ op ∈ ops, Tracked op.run) : Tracked (runOps ops) := by
  induction ops with
  | nil =>
    intro s
    exact ⟨s, [], rfl, by simp, rfl, fun hp => ⟨hp, by simp [statesAfter, transitions]⟩⟩
  | cons op ops ih =>
    exact Tracked.bind (h op (by simp)) (ih (fun o ho => h o (by simp [ho])))

theorem tracked_tm_displayDigits (n : Nat) : Tracked (tm_displayDigits n) := by
  have : tm_displayDigits n = runOps _ := funext (tm_displayDigits_eq n)
  rw [this]
  apply tracked_runOps
  intro op hop
  apply tracked_simple_op
  intro m hm
  subst hm
  simp at hop

theorem tracked_op (op : Op) : Tracked op.run := by
  cases op with
  | displayDigits n => exact tracked_tm_displayDigits n
  | _ => exact tracked_simple_op _ (fun n hn => by cases hn)

theorem and_one_ne_zero_iff (b : Nat) : b &&& 1 ≠ 0 ↔ b.testBit 0 = true := by
  rw [Nat.and_one_is_mod, Nat.testBit_zero]
  simp

theorem body_rising (b : Nat) (s : State) :
    (clockRisingStates s.regs (eventsSince s (tm_writeByte_body b s).2)).map dioView =
      [(b.testBit 0, !b.testBit 0)] := by
  by_cases hb : b &&& 1 ≠ 0
  · have hb2 := (and_one_ne_zero_iff b).1 hb
    have e : (tm_writeByte_body b s).2 =
        _delay_us 10 (clk_high (_delay_us 10 (dio_high (clk_low s)))) := by
      simp only [tm_writeByte_body, if_pos hb]
    rw [e]
    simp [eventsSince, hb2, clk_low, clk_high, dio_high, _delay_us, rmw_DDRF,
      rmw_PORTF, clockRisingStates, transitions, clkRising, released, assertedLow, dioView,
      Event.apply, State.regs, testBit_orBit, testBit_andNotBit, CLK_PIN, DIO_PIN, PF0, PF1,
      -Nat.testBit_zero]
  · have hb2 : b.testBit 0 = false := by
      rw [and_one_ne_zero_iff] at hb
      simpa using hb
    have e : (tm_writeByte_body b s).2 =
        _delay_us 10 (clk_high (_delay_us 10 (dio_low (clk_low s)))) := by
      simp only [tm_writeByte_body, if_neg hb]
    rw [e]
    simp [eventsSince, hb2, clk_low, clk_high, dio_low, _delay_us, rmw_DDRF,
      rmw_PORTF, clockRisingStates, transitions, clkRising, released, assertedLow, dioView,
      Event.apply, State.regs, testBit_orBit, testBit_andNotBit, CLK_PIN, DIO_PIN, PF0, PF1,
      -Nat.testBit_zero]

theorem tracked_events {f : State → State} (hf : Tracked (fun s => some (f s))) (s : State) :
    (f s).trace = s.trace ++ eventsSince s (f s) ∧
    (eventsSince s (f s)).foldl Event.apply s.regs = (f s).regs := by
  obtain ⟨t, es, e, tr, rg, _⟩ := hf s
  have ht : f s = t := Option.some.inj e
  rw [ht, eventsSince_append s t es tr]
  exact ⟨tr, rg⟩

theorem eventsSince_trans (s t u : State) (h1 : t.trace = s.trace ++ eventsSince s t)
    (h2 : u.trace = t.trace ++ eventsSince t u) :
    eventsSince s u = eventsSince s t ++ eventsSince t u := by
  apply eventsSince_append
  rw [h2, h1, List.append_assoc]

theorem loop_rising (k : Nat) : ∀ (b : Nat) (s : State), k ≤ 8 →
    (clockRisingStates s.regs (eventsSince s (tm_writeByte_loop k b s).2)).map dioView =
      (List.range k).map (fun i => (b.testBit i, !b.testBit i)) := by
  induction k with
  | zero =>
    intro b s _
    simp [tm_writeByte_loop, eventsSince, clockRisingStates, transitions]
  | succ k ih =>
    intro b s hk
    obtain ⟨tr1, rg1⟩ := tracked_events (tracked_body b) s
    obtain ⟨tr2, _⟩ := tracked_events (tracked_loop k ((b >>> 1) % 256)) (tm_writeByte_body b s).2
    have hloop : tm_writeByte_loop (k + 1) b s =
        tm_writeByte_loop k ((b >>> 1) % 256) (tm_writeByte_body b s).2 := rfl
    rw [hloop, eventsSince_trans _ _ _ tr1 tr2, clockRisingStates_append, List.map_append,
      body_rising, rg1, ih _ _ (by omega), List.range_succ_eq_map, List.map_cons, List.map_map]
    simp only [List.singleton_append, List.cons.injEq, true_and]
    apply List.map_congr_left
    intro i hi
    have hi2 : i < 8 := by have := List.mem_range.1 hi; omega
    rw [show (256 : Nat) = 2 ^ 8 from rfl, Nat.testBit_mod_two_pow, Nat.testBit_shiftRight,
      Nat.add_comm 1 i]
    simp [hi2]

theorem ack_rising (s : State) :
    (clockRisingStates s.regs
      (eventsSince s (clk_low (_delay_us 10 (clk_high (_delay_us 10 (dio_high (clk_low s)))))))).length
      = 1 := by
  simp [eventsSince, clk_low, clk_high, dio_high, _delay_us, rmw_DDRF,
      rmw_PORTF, clockRisingStates, transitions, clkRising, released, Event.apply,
      State.regs, testBit_orBit, testBit_andNotBit, CLK_PIN, DIO_PIN, PF0, PF1,
      -Nat.testBit_zero]

theorem tm_writeByte_rising (b : Nat) (s : State) :
    ∃ ack, (clockRisingStates s.regs (eventsSince s (tm_writeByte b s))).map dioView =
      (List.range 8).map (fun i => (b.testBit i, !b.testBit i)) ++ [ack] := by
  obtain ⟨tr1, rg1⟩ := tracked_events (tracked_loop 8 b) s
  have hack : Tracked (fun s => some (clk_low (_delay_us 10 (clk_high (_delay_us 10
      (dio_high (clk_low s))))))) :=
    Tracked.chain [clk_low, dio_high, _delay_us 10, clk_high, _delay_us 10, clk_low]
      (by
        intro f hf
        simp only [List.mem_cons, List.mem_singleton, List.not_mem_nil, or_false] at hf
        rcases hf with rfl | rfl | rfl | rfl | rfl | rfl
        · exact tracked_clk_low
        · exact tracked_dio_high
        · exact tracked_delay 10
        · exact tracked_clk_high
        · exact tracked_delay 10
        · exact tracked_clk_low)
  obtain ⟨tr2, _⟩ := tracked_events hack (tm_writeByte_loop 8 b s).2
  have hw : tm_writeByte b s = clk_low (_delay_us 10 (clk_high (_delay_us 10
      (dio_high (clk_low (tm_writeByte_loop 8 b s).2))))) := rfl
  rw [hw, eventsSince_trans _ _ _ tr1 tr2, clockRisingStates_append, List.map_append,
    loop_rising 8 b s (Nat.le_refl 8), rg1]
  have h1 := ack_rising (tm_writeByte_loop 8 b s).2
  match hm : clockRisingStates (tm_writeByte_loop 8 b s).2.regs (eventsSince (tm_writeByte_loop 8 b s).2
      (clk_low (_delay_us 10 (clk_high (_delay_us 10 (dio_high (clk_low (tm_writeByte_loop 8 b s).2))))))) with
  | [r] => exact ⟨dioView r, rfl⟩
  | [] => rw [hm] at h1; simp at h1
  | _ :: _ :: _ => rw [hm] at h1; simp at h1

/-- C6: started with the PORT bits of PF0 and PF1 clear (as `main` leaves them
after reset, whatever the DDR bits are), any sequence of driver calls with any
arguments runs to completion, and after every traced action, hence after every
register write, neither CLK nor DIO is an output driving high. -/
theorem never_output_high (ops : List Op) (s : State)
    (hp0 : s.PORTF.testBit PF0 = false) (hp1 : s.PORTF.testBit PF1 = false) :
    ∃ t, runOps ops s = some t ∧
      ∀ r ∈ statesAfter s.regs (eventsSince s t),
        outputHigh CLK_PIN r = false ∧ outputHigh DIO_PIN r = false := by
  obtain ⟨t, es, e, tr, _, hp⟩ := tracked_runOps ops (fun op _ => tracked_op op) s
  refine ⟨t, e, ?_⟩
  rw [eventsSince_append s t es tr]
  intro r hr
  obtain ⟨a, b⟩ := (hp ⟨hp0, hp1⟩).2 r hr
  simp [outputHigh, CLK_PIN, DIO_PIN, a, b]

/-- Witness of C6 from the state `main` establishes after reset (DDR bits of
both pins set, PORT bits clear), on a mixed sequence of calls. -/
theorem never_output_high_witness :
    ((main_init reset).PORTF.testBit PF0 = false ∧ (main_init reset).PORTF.testBit PF1 = false ∧
      (main_init reset).DDRF.testBit PF0 = true ∧ (main_init reset).DDRF.testBit PF1 = true) ∧
    ∃ t, runOps [Op.displayDigits 1234, Op.clkHigh, Op.dioLow, Op.writeByte 0xFF, Op.stop,
          Op.dioHigh, Op.clkLow, Op.start] (main_init reset) = some t ∧
      ∀ r ∈ statesAfter (main_init reset).regs (eventsSince (main_init reset) t),
        outputHigh CLK_PIN r = false ∧ outputHigh DIO_PIN r = false :=
  ⟨by decide, never_output_high _ (main_init reset) (by decide) (by decide)⟩

/-- C2: for every byte b and every entry state, `tm_writeByte b` raises the
clock line nine times, and at the i-th rising edge (i = 0..7) the data line is
released when bit i of b is 1 and asserted low when bit i of b is 0. -/
theorem tm_writeByte_lsb_first (b : Nat) (s : State) (i : Nat) (hi : i < 8) :
    (clockRisingStates s.regs (eventsSince s (tm_writeByte b s))).length = 9 ∧
    ∃ r, (clockRisingStates s.regs (eventsSince s (tm_writeByte b s)))[i]? = some r ∧
      released DIO_PIN r = b.testBit i ∧ assertedLow DIO_PIN r = !b.testBit i := by
  obtain ⟨ack, h⟩ := tm_writeByte_rising b s
  have hlen := congrArg List.length h
  simp only [List.length_map, List.length_append, List.length_range, List.length_singleton] at hlen
  refine ⟨hlen, ?_⟩
  have hget := congrArg (fun l => l[i]?) h
  simp only [List.getElem?_map] at hget
  rw [List.getElem?_append_left (by simp; omega), List.getElem?_map,
    List.getElem?_range (by omega)] at hget
  match hr : (clockRisingStates s.regs (eventsSince s (tm_writeByte b s)))[i]? with
  | none => rw [hr] at hget; simp at hget
  | some r =>
    rw [hr] at hget
    simp only [Option.map_some', Option.some.injEq, dioView, Prod.mk.injEq] at hget
    exact ⟨r, rfl, hget.1, hget.2⟩

/-- Witness of C2: for 0x01 the first bit driven is 1; for 0x80 the first bit
driven is 0 and the eighth is 1. -/
theorem tm_writeByte_lsb_first_witness :
    ((0 < 8 ∧ 7 < 8) ∧ (0x01 : Nat).testBit 0 = true ∧ (0x80 : Nat).testBit 0 = false ∧
      (0x80 : Nat).testBit 7 = true) ∧
    ((clockRisingStates (main_init reset).regs
        (eventsSince (main_init reset) (tm_writeByte 0x01 (main_init reset)))).length = 9 ∧
      ∃ r, (clockRisingStates (main_init reset).regs
          (eventsSince (main_init reset) (tm_writeByte 0x01 (main_init reset))))[0]? = some r ∧
        released DIO_PIN r = (0x01 : Nat).testBit 0 ∧
        assertedLow DIO_PIN r = !(0x01 : Nat).testBit 0) ∧
    ((clockRisingStates (main_init reset).regs
        (eventsSince (main_init reset) (tm_writeByte 0x80 (main_init reset)))).length = 9 ∧
      ∃ r, (clockRisingStates (main_init reset).regs
          (eventsSince (main_init reset) (tm_writeByte 0x80 (main_init reset))))[0]? = some r ∧
        released DIO_PIN r = (0x80 : Nat).testBit 0 ∧
        assertedLow DIO_PIN r = !(0x80 : Nat).testBit 0) ∧
    ((clockRisingStates (main_init reset).regs
        (eventsSince (main_init reset) (tm_writeByte 0x80 (main_init reset)))).length = 9 ∧
      ∃ r, (clockRisingStates (main_init reset).regs
          (eventsSince (main_init reset) (tm_writeByte 0x80 (main_init reset))))[7]? = some r ∧
        released DIO_PIN r = (0x80 : Nat).testBit 7 ∧
        assertedLow DIO_PIN r = !(0x80 : Nat).testBit 7) :=
  ⟨by decide,
   tm_writeByte_lsb_first 0x01 (main_init reset) 0 (by decide),
   tm_writeByte_lsb_first 0x80 (main_init reset) 0 (by decide),
   tm_writeByte_lsb_first 0x80 (main_init reset) 7 (by decide)⟩

/-- C8: from every register state `tm_stop` ends with both DDR bits clear
(both lines released); `tm_start` directly followed by `tm_stop` also ends with
both lines released, its trace holds exactly one START..STOP frame, that frame
has one clock rising edge, and the whole trace has at most two, so fewer than
the eight a data byte needs. -/
theorem tm_start_stop_carries_no_byte (s : State) :
    ((tm_stop s).DDRF.testBit CLK_PIN = false ∧ (tm_stop s).DDRF.testBit DIO_PIN = false) ∧
    ((tm_stop (tm_start s)).DDRF.testBit CLK_PIN = false ∧
      (tm_stop (tm_start s)).DDRF.testBit DIO_PIN = false) ∧
    frameClockEdges s.regs (eventsSince s (tm_stop (tm_start s))) = [1] ∧
    (∀ k ∈ frameClockEdges s.regs (eventsSince s (tm_stop (tm_start s))), k < 8) ∧
    (clockRisingStates s.regs (eventsSince s (tm_stop (tm_start s)))).length < 8 := by
  have hframes : frameClockEdges s.regs (eventsSince s (tm_stop (tm_start s))) = [1] := by
    cases h0 : s.DDRF.testBit 0 <;> cases h1 : s.DDRF.testBit 1 <;>
    simp [eventsSince, tm_start, tm_stop, clk_low, clk_high, dio_low, dio_high, _delay_us,
      rmw_DDRF, rmw_PORTF, frameClockEdges, transitions, scanFrames, isStart, isStop, clkRising,
      released, Event.apply, State.regs, testBit_orBit, testBit_andNotBit, CLK_PIN, DIO_PIN,
      PF0, PF1, -Nat.testBit_zero, h0, h1]
  refine ⟨?_, ?_, hframes, ?_, ?_⟩
  · simp [tm_stop, clk_low, clk_high, dio_low, dio_high, _delay_us, rmw_DDRF, rmw_PORTF,
      testBit_orBit, testBit_andNotBit, CLK_PIN, DIO_PIN, PF0, PF1, -Nat.testBit_zero]
  · simp [tm_stop, clk_low, clk_high, dio_low, dio_high, _delay_us, rmw_DDRF, rmw_PORTF,
      testBit_orBit, testBit_andNotBit, CLK_PIN, DIO_PIN, PF0, PF1, -Nat.testBit_zero]
  · rw [hframes]
    simp
  · cases h0 : s.DDRF.testBit 0 <;> cases h1 : s.DDRF.testBit 1 <;>
    simp [eventsSince, tm_start, tm_stop, clk_low, clk_high, dio_low, dio_high, _delay_us,
      rmw_DDRF, rmw_PORTF, clockRisingStates, transitions, clkRising,
      released, Event.apply, State.regs, testBit_orBit, testBit_andNotBit, CLK_PIN, DIO_PIN,
      PF0, PF1, -Nat.testBit_zero, h0, h1]

/-! ## The receive interrupt and the main loop conversion -/

theorem isDigitChar_iff (c : Nat) : isDigitChar c = true ↔ 48 ≤ c ∧ c ≤ 57 := by
  simp [isDigitChar]

theorem take_set_self (l : List Nat) (n a : Nat) : (l.set n a).take n = l.take n := by
  rw [List.set_take]
  exact List.set_eq_of_length_le (by simp)

/-- A byte that fails the guard of the handler changes no receive variable. -/
theorem ISR_skip (c polls : Nat) (st : State) (h : ¬ (48 ≤ c ∧ c ≤ 57 ∧ st.count < 4)) :
    (ISR_USART0_RX c polls st).buffer = st.buffer ∧
    (ISR_USART0_RX c polls st).count = st.count ∧
    (ISR_USART0_RX c polls st).numberReady = st.numberReady := by
  unfold ISR_USART0_RX
  simp only [if_neg h, and_self]

/-- A digit that passes the guard is stored at index `count`. -/
theorem ISR_take (c polls : Nat) (st : State) (h : 48 ≤ c ∧ c ≤ 57 ∧ st.count < 4)
    (hl : st.buffer.length = 5) :
    (ISR_USART0_RX c polls st).buffer.length = 5 ∧
    (ISR_USART0_RX c polls st).count = st.count + 1 ∧
    (ISR_USART0_RX c polls st).numberReady = (if st.count = 3 then 1 else st.numberReady) ∧
    (ISR_USART0_RX c polls st).buffer.take (st.count + 1) = st.buffer.take st.count ++ [c] := by
  obtain ⟨h1, h2, h3⟩ := h
  have hmod : (st.count + 1) % 256 = st.count + 1 := by omega
  have htk : (st.buffer.set st.count c).take (st.count + 1) = st.buffer.take st.count ++ [c] := by
    rw [List.take_succ, take_set_self]
    simp [List.getElem?_set, hl, show st.count < 5 by omega]
  unfold ISR_USART0_RX writeChar
  simp only [h1, h2, h3, and_self, if_true, hmod]
  by_cases h4 : st.count + 1 = 4
  · have h5 : st.count = 3 := by omega
    simp only [h4, if_true, List.length_set, hl, true_and, h5]
    have e := take_set_self (st.buffer.set st.count c) 4 0
    rw [h5] at htk e
    rw [e, htk]
  · have h5 : ¬ st.count = 3 := by omega
    simp only [h4, if_false, List.length_set, hl, true_and, h5]
    exact htk

theorem digitsOf_append (cs : List (Nat × Nat)) (c : Nat × Nat) :
    digitsOf (cs ++ [c]) = if isDigitChar c.1 then digitsOf cs ++ [c.1] else digitsOf cs := by
  unfold digitsOf
  by_cases h : isDigitChar c.1 = true <;> simp [List.filter_append, List.filter_cons, h]

theorem receive_append (cs : List (Nat × Nat)) (c : Nat × Nat) (s : State) :
    receive (cs ++ [c]) s = ISR_USART0_RX c.1 c.2 (receive cs s) := by
  simp [receive, List.foldl_append]

theorem RxInv_step (ds : List Nat) (st : State) (c polls : Nat) (h : RxInv ds st) :
    RxInv (if isDigitChar c then ds ++ [c] else ds) (ISR_USART0_RX c polls st) := by
  obtain ⟨hl, hc, hr, hb⟩ := h
  by_cases hd : isDigitChar c = true
  · rw [if_pos hd]
    have hd2 := (isDigitChar_iff c).1 hd
    by_cases h4 : st.count < 4
    · obtain ⟨e1, e2, e3, e4⟩ := ISR_take c polls st ⟨hd2.1, hd2.2, h4⟩ hl
      have hlen : ds.length = st.count := by omega
      have hds : ds.take 4 = ds := List.take_of_length_le (by omega)
      have hr0 : st.numberReady = 0 := by rw [hr, if_neg (by omega)]
      refine ⟨e1, ?_, ?_, ?_⟩
      · rw [e2, List.length_append, List.length_singleton]; omega
      · rw [e3, List.length_append, List.length_singleton, hr0]
        by_cases h3 : st.count = 3
        · rw [if_pos h3, if_pos (by omega)]
        · rw [if_neg h3, if_neg (by omega)]
      · rw [e2, e4, hb, hds]
        exact (List.take_of_length_le (by simp; omega)).symm
    · obtain ⟨e1, e2, e3⟩ := ISR_skip c polls st (by omega)
      have h4len : 4 ≤ ds.length := by omega
      refine ⟨by rw [e1]; exact hl, ?_, ?_, ?_⟩
      · rw [e2, List.length_append, List.length_singleton]; omega
      · rw [e3, List.length_append, List.length_singleton, hr, if_pos h4len, if_pos (by omega)]
      · rw [e1, e2, hb, List.take_append_of_le_length h4len]
  · rw [if_neg hd]
    have hd2 : ¬ (48 ≤ c ∧ c ≤ 57) := fun h => hd ((isDigitChar_iff c).2 h)
    obtain ⟨e1, e2, e3⟩ := ISR_skip c polls st (fun h => hd2 ⟨h.1, h.2.1⟩)
    exact ⟨by rw [e1]; exact hl, by rw [e2]; exact hc, by rw [e3]; exact hr,
      by rw [e1, e2]; exact hb⟩

theorem RxInv_receive (cs : List (Nat × Nat)) (s : State)
    (hc : s.count = 0) (hr : s.numberReady = 0) (hl : s.buffer.length = 5) :
    RxInv (digitsOf cs) (receive cs s) := by
  induction cs using List.reverseRecOn with
  | nil =>
    exact ⟨hl, by simp [receive, digitsOf, hc], by simp [receive, digitsOf, hr],
      by simp [receive, digitsOf, hc]⟩
  | append_singleton cs c ih =>
    rw [receive_append, digitsOf_append]
    exact RxInv_step _ _ _ _ ih

/-- C10: from `count = 0`, `numberReady = 0` and a five-byte buffer, after the
handler has run on any sequence of received bytes: `numberReady` is 1 when at
least four digit characters have arrived and 0 otherwise, `count` is the
smaller of 4 and the number of digits received, the first `count` buffer bytes
are the first `count` digits in arrival order, and a further byte that is not
a digit, or any further byte once four digits have arrived, leaves `buffer`,
`count` and `numberReady` as they are. -/
theorem receive_readiness (cs : List (Nat × Nat)) (s : State)
    (hc : s.count = 0) (hr : s.numberReady = 0) (hl : s.buffer.length = 5) :
    ((receive cs s).numberReady = 1 ↔ 4 ≤ (digitsOf cs).length) ∧
    ((receive cs s).numberReady = 0 ↔ (digitsOf cs).length < 4) ∧
    (receive cs s).count = min 4 (digitsOf cs).length ∧
    (receive cs s).buffer.take (receive cs s).count =
      (digitsOf cs).take (receive cs s).count ∧
    (∀ c polls : Nat, isDigitChar c = false ∨ 4 ≤ (digitsOf cs).length →
      (ISR_USART0_RX c polls (receive cs s)).buffer = (receive cs s).buffer ∧
      (ISR_USART0_RX c polls (receive cs s)).count = (receive cs s).count ∧
      (ISR_USART0_RX c polls (receive cs s)).numberReady = (receive cs s).numberReady) := by
  obtain ⟨_, h2, h3, h4⟩ := RxInv_receive cs s hc hr hl
  refine ⟨?_, ?_, h2, ?_, ?_⟩
  · rw [h3]
    by_cases h : 4 ≤ (digitsOf cs).length <;> simp [h]
  · rw [h3]
    by_cases h : 4 ≤ (digitsOf cs).length
    · simp [h]
    · simp only [if_neg h, true_iff]; omega
  · rw [h4, h2]
    by_cases h : 4 ≤ (digitsOf cs).length
    · rw [Nat.min_eq_left h]
    · rw [Nat.min_eq_right (by omega), List.take_of_length_le (by omega),
        List.take_of_length_le (Nat.le_refl _)]
  · intro c polls hcase
    apply ISR_skip
    rintro ⟨a, b, d⟩
    rcases hcase with hnd | hfull
    · rw [(isDigitChar_iff c).2 ⟨a, b⟩] at hnd
      exact Bool.noConfusion hnd
    · omega

/-- Witness of C10 on '1','2','3','4' from the power-on state: the flag is
still 0 after three digits, 1 after the fourth, and a fifth digit is dropped. -/
theorem receive_readiness_witness :
    ((reset.count = 0 ∧ reset.numberReady = 0 ∧ reset.buffer.length = 5) ∧
      (receive [(49, 0), (50, 1), (51, 0)] reset).numberReady = 0 ∧
      (receive [(49, 0), (50, 1), (51, 0), (52, 2)] reset).numberReady = 1 ∧
      (receive [(49, 0), (50, 1), (51, 0), (52, 2)] reset).buffer = [49, 50, 51, 52, 0] ∧
      (receive [(49, 0), (50, 1), (51, 0), (52, 2), (53, 0)] reset).buffer = [49, 50, 51, 52, 0] ∧
      (receive [(49, 0), (50, 1), (51, 0), (52, 2), (53, 0)] reset).count = 4) ∧
    (((receive [(49, 0), (50, 1), (51, 0), (52, 2)] reset).numberReady = 1 ↔
        4 ≤ (digitsOf [(49, 0), (50, 1), (51, 0), (52, 2)]).length) ∧
      ((receive [(49, 0), (50, 1), (51, 0), (52, 2)] reset).numberReady = 0 ↔
        (digitsOf [(49, 0), (50, 1), (51, 0), (52, 2)]).length < 4) ∧
      (receive [(49, 0), (50, 1), (51, 0), (52, 2)] reset).count =
        min 4 (digitsOf [(49, 0), (50, 1), (51, 0), (52, 2)]).length ∧
      (receive [(49, 0), (50, 1), (51, 0), (52, 2)] reset).buffer.take
          (receive [(49, 0), (50, 1), (51, 0), (52, 2)] reset).count =
        (digitsOf [(49, 0), (50, 1), (51, 0), (52, 2)]).take
          (receive [(49, 0), (50, 1), (51, 0), (52, 2)] reset).count ∧
      (∀ c polls : Nat,
        isDigitChar c = false ∨ 4 ≤ (digitsOf [(49, 0), (50, 1), (51, 0), (52, 2)]).length →
        (ISR_USART0_RX c polls (receive [(49, 0), (50, 1), (51, 0), (52, 2)] reset)).buffer =
          (receive [(49, 0), (50, 1), (51, 0), (52, 2)] reset).buffer ∧
        (ISR_USART0_RX c polls (receive [(49, 0), (50, 1), (51, 0), (52, 2)] reset)).count =
          (receive [(49, 0), (50, 1), (51, 0), (52, 2)] reset).count ∧
        (ISR_USART0_RX c polls (receive [(49, 0), (50, 1), (51, 0), (52, 2)] reset)).numberReady =
          (receive [(49, 0), (50, 1), (51, 0), (52, 2)] reset).numberReady)) :=
  ⟨by decide, receive_readiness [(49, 0), (50, 1), (51, 0), (52, 2)] reset rfl rfl rfl⟩

/-- One pass of the conversion loop on a digit character does not wrap. -/
theorem main_number_step_exact (buffer : List Nat) (number i c : Nat)
    (hc : buffer[i]? = some c) (hd : isDigitChar c = true) (hn : number ≤ 999) :
    main_number_step buffer number i = number * 10 + (c - 48) ∧
    ((main_number_step buffer number i : Nat) : Int) = (number : Int) * 10 + ((c : Int) - 48) := by
  rw [isDigitChar_iff] at hd
  have hg : buffer.getD i 0 = c := by simp [List.getD, hc]
  unfold main_number_step
  rw [hg]
  omega

/-- C4: with four ASCII digit characters c0..c3 in `buffer[0..3]`, each pass
of the conversion loop of `main` computes `number * 10 + (c - 48)` without
16-bit wrap-around, the result is the value 1000*(c0-48) + 100*(c1-48) +
10*(c2-48) + (c3-48), at most 9999, and `tm_displayDigits` of it completes as
the transaction whose four data bytes are the table entries of c0-48, c1-48,
c2-48, c3-48 in that order, right after the address-0 command 0xC0. -/
theorem main_shows_typed_digits (c0 c1 c2 c3 : Nat) (s : State)
    (h0 : isDigitChar c0 = true) (h1 : isDigitChar c1 = true)
    (h2 : isDigitChar c2 = true) (h3 : isDigitChar c3 = true)
    (b0 : s.buffer[0]? = some c0) (b1 : s.buffer[1]? = some c1)
    (b2 : s.buffer[2]? = some c2) (b3 : s.buffer[3]? = some c3) :
    (((main_number_step s.buffer 0 0 : Nat) : Int) = (0 : Int) * 10 + ((c0 : Int) - 48) ∧
      ((main_number_step s.buffer (c0 - 48) 1 : Nat) : Int) =
        ((c0 - 48 : Nat) : Int) * 10 + ((c1 : Int) - 48) ∧
      ((main_number_step s.buffer ((c0 - 48) * 10 + (c1 - 48)) 2 : Nat) : Int) =
        (((c0 - 48) * 10 + (c1 - 48) : Nat) : Int) * 10 + ((c2 : Int) - 48) ∧
      ((main_number_step s.buffer (((c0 - 48) * 10 + (c1 - 48)) * 10 + (c2 - 48)) 3 : Nat) : Int) =
        ((((c0 - 48) * 10 + (c1 - 48)) * 10 + (c2 - 48) : Nat) : Int) * 10 + ((c3 : Int) - 48)) ∧
    main_number s.buffer = (c0 - 48) * 1000 + (c1 - 48) * 100 + (c2 - 48) * 10 + (c3 - 48) ∧
    main_number s.buffer ≤ 9999 ∧
    (tm_displayDigits (main_number s.buffer) s).isSome = true ∧
    tm_displayDigits (main_number s.buffer) s = runOps
      [Op.start, Op.writeByte 0x40, Op.stop,
       Op.start, Op.writeByte 0xC0,
       Op.writeByte (SEGMENTS.getD (c0 - 48) 0),
       Op.writeByte (SEGMENTS.getD (c1 - 48) 0),
       Op.writeByte (SEGMENTS.getD (c2 - 48) 0),
       Op.writeByte (SEGMENTS.getD (c3 - 48) 0), Op.stop,
       Op.start, Op.writeByte 0x8F, Op.stop] s := by
  have r0 := (isDigitChar_iff c0).1 h0
  have r1 := (isDigitChar_iff c1).1 h1
  have r2 := (isDigitChar_iff c2).1 h2
  have r3 := (isDigitChar_iff c3).1 h3
  have s0 := main_number_step_exact s.buffer 0 0 c0 b0 h0 (by omega)
  have s1 := main_number_step_exact s.buffer (c0 - 48) 1 c1 b1 h1 (by omega)
  have s2 := main_number_step_exact s.buffer ((c0 - 48) * 10 + (c1 - 48)) 2 c2 b2 h2 (by omega)
  have s3 := main_number_step_exact s.buffer (((c0 - 48) * 10 + (c1 - 48)) * 10 + (c2 - 48)) 3
    c3 b3 h3 (by omega)
  have hnum : main_number s.buffer =
      (c0 - 48) * 1000 + (c1 - 48) * 100 + (c2 - 48) * 10 + (c3 - 48) := by
    have e0 : main_number_step s.buffer 0 0 = c0 - 48 := by rw [s0.1]; omega
    simp only [main_number, List.foldl_cons, List.foldl_nil, e0, s1.1, s2.1, s3.1]
    omega
  refine ⟨⟨s0.2, s1.2, s2.2, s3.2⟩, hnum, by rw [hnum]; omega, tm_displayDigits_isSome _ s, ?_⟩
  rw [tm_displayDigits_eq, hnum]
  have e0 : ((c0 - 48) * 1000 + (c1 - 48) * 100 + (c2 - 48) * 10 + (c3 - 48)) / 1000 % 10
      = c0 - 48 := by omega
  have e1 : ((c0 - 48) * 1000 + (c1 - 48) * 100 + (c2 - 48) * 10 + (c3 - 48)) / 100 % 10
      = c1 - 48 := by omega
  have e2 : ((c0 - 48) * 1000 + (c1 - 48) * 100 + (c2 - 48) * 10 + (c3 - 48)) / 10 % 10
      = c2 - 48 := by omega
  have e3 : ((c0 - 48) * 1000 + (c1 - 48) * 100 + (c2 - 48) * 10 + (c3 - 48)) % 10
      = c3 - 48 := by omega
  rw [e0, e1, e2, e3]

/-- Witness of C4: after '1','2','3','4' have been received the conversion
gives 1234 and the transaction carries the patterns of 1, 2, 3, 4 in order. -/
theorem main_shows_typed_digits_witness :
    ((isDigitChar 49 = true ∧ isDigitChar 50 = true ∧ isDigitChar 51 = true ∧
        isDigitChar 52 = true) ∧
      (receive [(49, 0), (50, 0), (51, 0), (52, 0)] (main_init reset)).buffer[0]? = some 49 ∧
      (receive [(49, 0), (50, 0), (51, 0), (52, 0)] (main_init reset)).buffer[1]? = some 50 ∧
      (receive [(49, 0), (50, 0), (51, 0), (52, 0)] (main_init reset)).buffer[2]? = some 51 ∧
      (receive [(49, 0), (50, 0), (51, 0), (52, 0)] (main_init reset)).buffer[3]? = some 52) ∧
    main_number (receive [(49, 0), (50, 0), (51, 0), (52, 0)] (main_init reset)).buffer = 1234 ∧
    tm_displayDigits
        (main_number (receive [(49, 0), (50, 0), (51, 0), (52, 0)] (main_init reset)).buffer)
        (receive [(49, 0), (50, 0), (51, 0), (52, 0)] (main_init reset)) = runOps
      [Op.start, Op.writeByte 0x40, Op.stop,
       Op.start, Op.writeByte 0xC0,
       Op.writeByte 0b00000110, Op.writeByte 0b01011011,
       Op.writeByte 0b01001111, Op.writeByte 0b01100110, Op.stop,
       Op.start, Op.writeByte 0x8F, Op.stop]
      (receive [(49, 0), (50, 0), (51, 0), (52, 0)] (main_init reset)) :=
  ⟨by decide,
   (main_shows_typed_digits 49 50 51 52
      (receive [(49, 0), (50, 0), (51, 0), (52, 0)] (main_init reset))
      (by decide) (by decide) (by decide) (by decide) rfl rfl rfl rfl).2.1,
   (main_shows_typed_digits 49 50 51 52
      (receive [(49, 0), (50, 0), (51, 0), (52, 0)] (main_init reset))
      (by decide) (by decide) (by decide) (by decide) rfl rfl rfl rfl).2.2.2.2⟩

/-! ## Pin direction, frame and table facts -/

theorem orBit_idem (r p : Nat) : orBit (orBit r p) p = orBit r p := by
  apply Nat.eq_of_testBit_eq
  intro i
  simp only [testBit_orBit]
  by_cases h8 : i < 8 <;> by_cases hp : p = i <;> simp [h8, hp]

theorem andNotBit_idem (r p : Nat) : andNotBit (andNotBit r p) p = andNotBit r p := by
  apply Nat.eq_of_testBit_eq
  intro i
  simp only [testBit_andNotBit]
  by_cases h8 : i < 8 <;> by_cases hp : p = i <;> simp [h8, hp]

/-- C11: for each line and every prior state, assert-low then release leaves
the DDR bit of the pin clear; release then assert-low leaves it set with the
PORT bit clear; and each of the four helpers run twice leaves the registers
and the program variables exactly as one run does. -/
theorem last_call_wins (s : State) :
    ((clk_high (clk_low s)).DDRF.testBit CLK_PIN = false ∧
      (dio_high (dio_low s)).DDRF.testBit DIO_PIN = false) ∧
    ((clk_low (clk_high s)).DDRF.testBit CLK_PIN = true ∧
      (clk_low (clk_high s)).PORTF.testBit CLK_PIN = false ∧
      (dio_low (dio_high s)).DDRF.testBit DIO_PIN = true ∧
      (dio_low (dio_high s)).PORTF.testBit DIO_PIN = false) ∧
    ((clk_high (clk_high s)).regs = (clk_high s).regs ∧
      (clk_low (clk_low s)).regs = (clk_low s).regs ∧
      (dio_high (dio_high s)).regs = (dio_high s).regs ∧
      (dio_low (dio_low s)).regs = (dio_low s).regs) ∧
    ({ clk_high (clk_high s) with trace := [] } = { clk_high s with trace := [] } ∧
      { clk_low (clk_low s) with trace := [] } = { clk_low s with trace := [] } ∧
      { dio_high (dio_high s) with trace := [] } = { dio_high s with trace := [] } ∧
      { dio_low (dio_low s) with trace := [] } = { dio_low s with trace := [] }) := by
  refine ⟨?_, ?_, ?_, ?_⟩
  · simp [clk_low, clk_high, dio_low, dio_high, rmw_DDRF, rmw_PORTF, testBit_orBit,
      testBit_andNotBit, CLK_PIN, DIO_PIN, PF0, PF1, -Nat.testBit_zero]
  · simp [clk_low, clk_high, dio_low, dio_high, rmw_DDRF, rmw_PORTF, testBit_orBit,
      testBit_andNotBit, CLK_PIN, DIO_PIN, PF0, PF1, -Nat.testBit_zero]
  · simp [clk_low, clk_high, dio_low, dio_high, rmw_DDRF, rmw_PORTF, State.regs, orBit_idem,
      andNotBit_idem]
  · simp [clk_low, clk_high, dio_low, dio_high, rmw_DDRF, rmw_PORTF, orBit_idem,
      andNotBit_idem]

/-- C16: for every 16-bit num each of the four table indices computed by the
display routine is below 10, the length of the table, and each lookup finds an
entry. -/
theorem table_index_in_bounds (num : Nat) (hnum : num < 65536) :
    SEGMENTS.length = 10 ∧
    (d0 num < SEGMENTS.length ∧ d1 num < SEGMENTS.length ∧
      d2 num < SEGMENTS.length ∧ d3 num < SEGMENTS.length) ∧
    ((SEGMENTS[d0 num]?).isSome = true ∧ (SEGMENTS[d1 num]?).isSome = true ∧
      (SEGMENTS[d2 num]?).isSome = true ∧ (SEGMENTS[d3 num]?).isSome = true) := by
  have _ := hnum
  have hlen : SEGMENTS.length = 10 := rfl
  have h0 : d0 num < 10 := by rw [d0_eq]; omega
  have h1 : d1 num < 10 := by rw [d1_eq]; omega
  have h2 : d2 num < 10 := by rw [d2_eq]; omega
  have h3 : d3 num < 10 := by rw [d3_eq]; omega
  refine ⟨hlen, ⟨by omega, by omega, by omega, by omega⟩, ?_, ?_, ?_, ?_⟩
  · rw [SEGMENTS_lookup _ h0]; rfl
  · rw [SEGMENTS_lookup _ h1]; rfl
  · rw [SEGMENTS_lookup _ h2]; rfl
  · rw [SEGMENTS_lookup _ h3]; rfl

/-- Witness of C16 at the largest 16-bit value. -/
theorem table_index_in_bounds_witness :
    (65535 < 65536 ∧ d0 65535 = 5 ∧ d1 65535 = 5 ∧ d2 65535 = 3 ∧ d3 65535 = 5) ∧
    (SEGMENTS.length = 10 ∧
      (d0 65535 < SEGMENTS.length ∧ d1 65535 < SEGMENTS.length ∧
        d2 65535 < SEGMENTS.length ∧ d3 65535 < SEGMENTS.length) ∧
      ((SEGMENTS[d0 65535]?).isSome = true ∧ (SEGMENTS[d1 65535]?).isSome = true ∧
        (SEGMENTS[d2 65535]?).isSome = true ∧ (SEGMENTS[d3 65535]?).isSome = true)) :=
  ⟨by decide, table_index_in_bounds 65535 (by decide)⟩

theorem SEGMENTS_inj (d e : Nat) (hd : d < 10) (he : e < 10)
    (h : SEGMENTS[d]? = SEGMENTS[e]?) : d = e := by
  interval_cases d <;> interval_cases e <;> first | rfl | (exact absurd h (by decide))

/-! ## The two source files -/

theorem demo_loop_eq (k : Nat) : ∀ (b : Nat) (s : State),
    Demo.tm_writeByte_loop k b s = tm_writeByte_loop k b s := by
  induction k with
  | zero => intro b s; rfl
  | succ k ih =>
    intro b s
    show Demo.tm_writeByte_loop k _ _ = tm_writeByte_loop k _ _
    exact ih _ _

theorem demo_tm_writeByte_eq (b : Nat) (s : State) : Demo.tm_writeByte b s = tm_writeByte b s := by
  unfold Demo.tm_writeByte tm_writeByte
  rw [demo_loop_eq]
  rfl

theorem demo_tm_displayDigits_eq (n : Nat) (s : State) :
    Demo.tm_displayDigits (n / 1000 % 10) (n / 100 % 10) (n / 10 % 10) (n % 10) s =
      tm_displayDigits n s := by
  have h0 := SEGMENTS_lookup (n / 1000 % 10) (Nat.mod_lt _ (by decide))
  have h1 := SEGMENTS_lookup (n / 100 % 10) (Nat.mod_lt _ (by decide))
  have h2 := SEGMENTS_lookup (n / 10 % 10) (Nat.mod_lt _ (by decide))
  have h3 := SEGMENTS_lookup (n % 10) (Nat.mod_lt _ (by decide))
  have g0 : Demo.SEGMENTS[n / 1000 % 10]? = some (SEGMENTS.getD (n / 1000 % 10) 0) := h0
  have g1 : Demo.SEGMENTS[n / 100 % 10]? = some (SEGMENTS.getD (n / 100 % 10) 0) := h1
  have g2 : Demo.SEGMENTS[n / 10 % 10]? = some (SEGMENTS.getD (n / 10 % 10) 0) := h2
  have g3 : Demo.SEGMENTS[n % 10]? = some (SEGMENTS.getD (n % 10) 0) := h3
  rw [tm_displayDigits_eq]
  simp only [Demo.tm_displayDigits, g0, g1, g2, g3, runOps, Op.run, Option.bind, bind, pure,
    demo_tm_writeByte_eq]
  rfl

/-- C13: the two files hold the same driver: equal tables, equal GPIO helpers,
equal start, stop and byte routines (same final state and same trace of
register accesses and delays from every state), and for n in 0..9999 the
four-argument display routine of the demo file run on the digits of n gives
exactly what the one-argument routine of the UART file gives on n. -/
theorem same_driver (n : Nat) (hn : n ≤ 9999) (b : Nat) (s : State) :
    Demo.SEGMENTS = SEGMENTS ∧
    (Demo.clk_high s = clk_high s ∧ Demo.clk_low s = clk_low s ∧
      Demo.dio_high s = dio_high s ∧ Demo.dio_low s = dio_low s) ∧
    (Demo.tm_start s = tm_start s ∧ Demo.tm_stop s = tm_stop s ∧
      Demo.tm_writeByte b s = tm_writeByte b s) ∧
    (Demo.tm_displayDigits (n / 1000 % 10) (n / 100 % 10) (n / 10 % 10) (n % 10) s =
      tm_displayDigits n s ∧
      (tm_displayDigits n s).isSome = true) :=
  have _ := hn
  ⟨rfl, ⟨rfl, rfl, rfl, rfl⟩, ⟨rfl, rfl, demo_tm_writeByte_eq b s⟩,
    demo_tm_displayDigits_eq n s, tm_displayDigits_isSome n s⟩

/-- Witness of C13 on the two calls of the demo loop, 1,2,3,4 and 8,8,8,8. -/
theorem same_driver_witness :
    (1234 ≤ 9999 ∧ 8888 ≤ 9999) ∧
    (Demo.tm_displayDigits 1 2 3 4 (main_init reset) = tm_displayDigits 1234 (main_init reset) ∧
      (tm_displayDigits 1234 (main_init reset)).isSome = true) ∧
    (Demo.tm_displayDigits 8 8 8 8 (main_init reset) = tm_displayDigits 8888 (main_init reset) ∧
      (tm_displayDigits 8888 (main_init reset)).isSome = true) :=
  ⟨by decide, (same_driver 1234 (by decide) 0 (main_init reset)).2.2.2,
    (same_driver 8888 (by decide) 0 (main_init reset)).2.2.2⟩

/-! ## Routines as sequences of pin operations -/

theorem runPinOps_append (a b : List PinOp) (s : State) :
    runPinOps (a ++ b) s = runPinOps b (runPinOps a s) := by
  simp [runPinOps, List.foldl_append]

theorem body_eq_ops (b : Nat) (s : State) :
    (tm_writeByte_body b s).2 = runPinOps (bitOps (b.testBit 0)) s := by
  by_cases hb : b &&& 1 ≠ 0
  · have hb2 := (and_one_ne_zero_iff b).1 hb
    simp only [tm_writeByte_body, if_pos hb, bitOps, hb2, if_true]
    rfl
  · have hb2 : b.testBit 0 = false := by
      rw [and_one_ne_zero_iff] at hb
      simpa using hb
    simp only [tm_writeByte_body, if_neg hb, bitOps, hb2]
    rfl

theorem loop_eq_ops (k : Nat) : ∀ (b : Nat) (s : State), k ≤ 8 →
    (tm_writeByte_loop k b s).2 =
      runPinOps ((List.range k).flatMap (fun i => bitOps (b.testBit i))) s := by
  induction k with
  | zero => intro b s _; rfl
  | succ k ih =>
    intro b s hk
    have hloop : tm_writeByte_loop (k + 1) b s =
        tm_writeByte_loop k ((b >>> 1) % 256) (tm_writeByte_body b s).2 := rfl
    rw [hloop, ih _ _ (by omega), body_eq_ops, List.range_succ_eq_map, List.flatMap_cons,
      runPinOps_append, List.flatMap_map]
    congr 1
    apply List.flatMap_congr
    intro i hi
    have hi2 : i < 8 := by have := List.mem_range.1 hi; omega
    rw [show (256 : Nat) = 2 ^ 8 from rfl, Nat.testBit_mod_two_pow, Nat.testBit_shiftRight,
      Nat.add_comm 1 i]
    simp [hi2]

/-- The byte routine is the described sequence of pin operations. -/
theorem tm_writeByte_eq_ops (b : Nat) (s : State) :
    tm_writeByte b s = runPinOps (writeByteOps b) s := by
  have hw : tm_writeByte b s = runPinOps ackOps (tm_writeByte_loop 8 b s).2 := rfl
  rw [hw, loop_eq_ops 8 b s (Nat.le_refl 8), writeByteOps, runPinOps_append]

theorem tm_start_eq_ops (s : State) : tm_start s = runPinOps startOps s := rfl

theorem tm_stop_eq_ops (s : State) : tm_stop s = runPinOps stopOps s := rfl

/-- The display transaction is its sequence of pin operations. -/
theorem tm_displayDigits_eq_ops (n : Nat) (s : State) :
    tm_displayDigits n s = some (runPinOps (displayOps n) s) := by
  rw [tm_displayDigits_eq]
  simp only [runOps, Op.run, Option.bind, displayOps, frameOps, List.flatMap_cons,
    List.flatMap_nil, List.append_nil, runPinOps_append, tm_writeByte_eq_ops, tm_start_eq_ops,
    tm_stop_eq_ops]

theorem tracked_pinOp (op : PinOp) : Tracked (fun s => some (op.run s)) := by
  cases op with
  | clkLow => exact tracked_clk_low
  | clkHigh => exact tracked_clk_high
  | dioLow => exact tracked_dio_low
  | dioHigh => exact tracked_dio_high
  | delay us => exact tracked_delay us

theorem tracked_pinOps (ops : List PinOp) : Tracked (fun s => some (runPinOps ops s)) := by
  have h := Tracked.chain (ops.map PinOp.run) (by
    intro f hf
    obtain ⟨op, _, rfl⟩ := List.mem_map.1 hf
    exact tracked_pinOp op)
  simpa [runPinOps, List.foldl_map] using h

/-- Events of a sequence of pin operations split at any point. -/
theorem pinOps_events_append (a b : List PinOp) (s : State) :
    eventsSince s (runPinOps (a ++ b) s) =
      eventsSince s (runPinOps a s) ++ eventsSince (runPinOps a s) (runPinOps b (runPinOps a s)) := by
  rw [runPinOps_append]
  exact eventsSince_trans _ _ _ (tracked_events (tracked_pinOps a) s).1
    (tracked_events (tracked_pinOps b) (runPinOps a s)).1

theorem pinOps_regs (a : List PinOp) (s : State) :
    (eventsSince s (runPinOps a s)).foldl Event.apply s.regs = (runPinOps a s).regs :=
  (tracked_events (tracked_pinOps a) s).2

/-- A property of the events of every single pin operation holds for the events
of every sequence of pin operations. -/
theorem pinOps_events_all (P : Event → Prop)
    (h : ∀ (op : PinOp) (s : State), ∀ e ∈ eventsSince s (op.run s), P e) :
    ∀ (ops : List PinOp) (s : State), ∀ e ∈ eventsSince s (runPinOps ops s), P e := by
  intro ops
  induction ops with
  | nil =>
    intro s e he
    simp [runPinOps, eventsSince] at he
  | cons op ops ih =>
    intro s e he
    have hsplit := pinOps_events_append [op] ops s
    rw [List.singleton_append] at hsplit
    rw [hsplit, List.mem_append] at he
    rcases he with he | he
    · exact h op s e he
    · exact ih _ e he

theorem pinOp_isPortAction (op : PinOp) (s : State) :
    ∀ e ∈ eventsSince s (op.run s), isPortAction e = true := by
  cases op <;>
  simp [PinOp.run, eventsSince, clk_low, clk_high, dio_low, dio_high, _delay_us, rmw_DDRF,
    rmw_PORTF, isPortAction]

theorem pinOp_ignoresPins (op : PinOp) : IgnoresPins op.run := by
  intro s p
  cases op <;> rfl

theorem pinOps_ignoresPins (ops : List PinOp) : IgnoresPins (runPinOps ops) := by
  induction ops with
  | nil => intro s p; rfl
  | cons op ops ih =>
    intro s p
    show runPinOps ops (op.run { s with PINF := p }) = { runPinOps ops (op.run s) with PINF := p }
    rw [pinOp_ignoresPins op s p, ih]

/-- C12: whatever the bus presents on the pin input register (acknowledge or
none), `tm_writeByte b` returns, with the same trace of register accesses and
delays, the same port registers and the same program variables, and none of
its actions reads the pin input register; `tm_displayDigits n` likewise
completes without error, with the same results, and reads no pin input. -/
theorem acknowledge_ignored (b n : Nat) (s : State) (ack nack : List Nat) :
    (tm_writeByte b { s with PINF := ack } = { tm_writeByte b s with PINF := ack } ∧
      (tm_writeByte b { s with PINF := ack }).trace =
        (tm_writeByte b { s with PINF := nack }).trace ∧
      (tm_writeByte b { s with PINF := ack }).regs =
        (tm_writeByte b { s with PINF := nack }).regs ∧
      ∀ e ∈ eventsSince s (tm_writeByte b s),
        isPortAction e = true ∧ e ≠ Event.read Reg.PINF) ∧
    (∃ t, tm_displayDigits n s = some t ∧
      tm_displayDigits n { s with PINF := ack } = some { t with PINF := ack } ∧
      tm_displayDigits n { s with PINF := nack } = some { t with PINF := nack } ∧
      ∀ e ∈ eventsSince s t, isPortAction e = true ∧ e ≠ Event.read Reg.PINF) := by
  have hport : ∀ e : Event, isPortAction e = true → e ≠ Event.read Reg.PINF := by
    intro e he h
    rw [h] at he
    exact Bool.noConfusion he
  have hev := pinOps_events_all (fun e => isPortAction e = true) pinOp_isPortAction
  have h1 : tm_writeByte b { s with PINF := ack } = { tm_writeByte b s with PINF := ack } := by
    rw [tm_writeByte_eq_ops, tm_writeByte_eq_ops]
    exact pinOps_ignoresPins (writeByteOps b) s ack
  have h2 : tm_writeByte b { s with PINF := nack } = { tm_writeByte b s with PINF := nack } := by
    rw [tm_writeByte_eq_ops, tm_writeByte_eq_ops]
    exact pinOps_ignoresPins (writeByteOps b) s nack
  refine ⟨⟨h1, ?_, ?_, ?_⟩, ?_⟩
  · rw [h1, h2]
  · rw [h1, h2]
    rfl
  · intro e he
    rw [tm_writeByte_eq_ops] at he
    exact ⟨hev _ s e he, hport e (hev _ s e he)⟩
  · refine ⟨runPinOps (displayOps n) s, tm_displayDigits_eq_ops n s, ?_, ?_, ?_⟩
    · rw [tm_displayDigits_eq_ops]
      exact congrArg some (pinOps_ignoresPins (displayOps n) s ack)
    · rw [tm_displayDigits_eq_ops]
      exact congrArg some (pinOps_ignoresPins (displayOps n) s nack)
    · intro e he
      exact ⟨hev _ s e he, hport e (hev _ s e he)⟩

theorem SameUpperBits.refl (s : State) : SameUpperBits s s := fun _ _ _ => ⟨rfl, rfl⟩

theorem SameUpperBits.trans {s t u : State} (h1 : SameUpperBits s t) (h2 : SameUpperBits t u) :
    SameUpperBits s u := by
  intro i h2i h8
  exact ⟨((h2 i h2i h8).1).trans (h1 i h2i h8).1, ((h2 i h2i h8).2).trans (h1 i h2i h8).2⟩

theorem pinOp_sameUpperBits (op : PinOp) (s : State) : SameUpperBits s (op.run s) := by
  intro i h2 h8
  have n0 : ¬ 0 = i := by omega
  have n1 : ¬ 1 = i := by omega
  cases op <;>
  simp [PinOp.run, clk_low, clk_high, dio_low, dio_high, _delay_us, rmw_DDRF, rmw_PORTF,
    testBit_orBit, testBit_andNotBit, CLK_PIN, DIO_PIN, PF0, PF1, h8, n0, n1]

theorem pinOps_sameUpperBits (ops : List PinOp) : ∀ s : State, SameUpperBits s (runPinOps ops s) := by
  induction ops with
  | nil => intro s; exact SameUpperBits.refl s
  | cons op ops ih =>
    intro s
    exact SameUpperBits.trans (pinOp_sameUpperBits op s) (ih (op.run s))

/-- C17: bit i (0..7) of `DDRF` and `PORTF` other than PF1 is left alone by the
clock helpers and other than PF0 by the data helpers; `clk_high` and
`dio_high` leave `PORTF` unchanged; for i in 2..7 the start, stop, byte and
display routines leave bit i of both registers unchanged; a clock helper
leaves the DDR and PORT bit of the data pin alone, and a data helper those of
the clock pin. -/
theorem port_frame (s : State) (i : Nat) (hi : i < 8) (b n : Nat) :
    (i ≠ PF1 →
      (clk_high s).DDRF.testBit i = s.DDRF.testBit i ∧
      (clk_low s).DDRF.testBit i = s.DDRF.testBit i ∧
      (clk_low s).PORTF.testBit i = s.PORTF.testBit i) ∧
    (i ≠ PF0 →
      (dio_high s).DDRF.testBit i = s.DDRF.testBit i ∧
      (dio_low s).DDRF.testBit i = s.DDRF.testBit i ∧
      (dio_low s).PORTF.testBit i = s.PORTF.testBit i) ∧
    ((clk_high s).PORTF = s.PORTF ∧ (dio_high s).PORTF = s.PORTF) ∧
    (2 ≤ i →
      ((tm_start s).DDRF.testBit i = s.DDRF.testBit i ∧
        (tm_start s).PORTF.testBit i = s.PORTF.testBit i) ∧
      ((tm_stop s).DDRF.testBit i = s.DDRF.testBit i ∧
        (tm_stop s).PORTF.testBit i = s.PORTF.testBit i) ∧
      ((tm_writeByte b s).DDRF.testBit i = s.DDRF.testBit i ∧
        (tm_writeByte b s).PORTF.testBit i = s.PORTF.testBit i) ∧
      ∃ t, tm_displayDigits n s = some t ∧
        t.DDRF.testBit i = s.DDRF.testBit i ∧ t.PORTF.testBit i = s.PORTF.testBit i) ∧
    ((clk_high s).DDRF.testBit DIO_PIN = s.DDRF.testBit DIO_PIN ∧
      (clk_low s).DDRF.testBit DIO_PIN = s.DDRF.testBit DIO_PIN ∧
      (clk_low s).PORTF.testBit DIO_PIN = s.PORTF.testBit DIO_PIN ∧
      (dio_high s).DDRF.testBit CLK_PIN = s.DDRF.testBit CLK_PIN ∧
      (dio_low s).DDRF.testBit CLK_PIN = s.DDRF.testBit CLK_PIN ∧
      (dio_low s).PORTF.testBit CLK_PIN = s.PORTF.testBit CLK_PIN) := by
  refine ⟨?_, ?_, ⟨rfl, rfl⟩, ?_, ?_⟩
  · intro h
    have n1 : ¬ 1 = i := fun e => h e.symm
    simp [clk_low, clk_high, rmw_DDRF, rmw_PORTF, testBit_orBit, testBit_andNotBit, CLK_PIN,
      PF1, hi, n1]
  · intro h
    have n0 : ¬ 0 = i := fun e => h e.symm
    simp [dio_low, dio_high, rmw_DDRF, rmw_PORTF, testBit_orBit, testBit_andNotBit, DIO_PIN,
      PF0, hi, n0]
  · intro h2
    refine ⟨?_, ?_, ?_, ?_⟩
    · rw [tm_start_eq_ops]
      exact pinOps_sameUpperBits _ s i h2 hi
    · rw [tm_stop_eq_ops]
      exact pinOps_sameUpperBits _ s i h2 hi
    · rw [tm_writeByte_eq_ops]
      exact pinOps_sameUpperBits _ s i h2 hi
    · exact ⟨_, tm_displayDigits_eq_ops n s, pinOps_sameUpperBits _ s i h2 hi⟩
  · simp [clk_low, clk_high, dio_low, dio_high, rmw_DDRF, rmw_PORTF, testBit_orBit,
      testBit_andNotBit, CLK_PIN, DIO_PIN, PF0, PF1, -Nat.testBit_zero]

/-- Witness of C17 on bit 5, from a state with other port F pins in use. -/
theorem port_frame_witness :
    (5 < 8 ∧ 5 ≠ PF1 ∧ 5 ≠ PF0 ∧ 2 ≤ 5 ∧
      { reset with DDRF := 0xA7, PORTF := 0xE4 }.DDRF.testBit 5 = true ∧
      { reset with DDRF := 0xA7, PORTF := 0xE4 }.PORTF.testBit 5 = true) ∧
    ((clk_low { reset with DDRF := 0xA7, PORTF := 0xE4 }).DDRF.testBit 5 = true ∧
      (dio_low { reset with DDRF := 0xA7, PORTF := 0xE4 }).PORTF.testBit 5
        = true) ∧
    ∃ t, tm_displayDigits 1234 { reset with DDRF := 0xA7, PORTF := 0xE4 } = some t ∧
      t.DDRF.testBit 5 =
        { reset with DDRF := 0xA7, PORTF := 0xE4 }.DDRF.testBit 5 ∧
      t.PORTF.testBit 5 =
        { reset with DDRF := 0xA7, PORTF := 0xE4 }.PORTF.testBit 5 :=
  ⟨by decide,
   ⟨((port_frame { reset with DDRF := 0xA7, PORTF := 0xE4 } 5 (by decide)
        0x5A 1234).1 (by decide)).2.1,
    ((port_frame { reset with DDRF := 0xA7, PORTF := 0xE4 } 5 (by decide)
        0x5A 1234).2.1 (by decide)).2.2⟩,
   ((port_frame { reset with DDRF := 0xA7, PORTF := 0xE4 } 5 (by decide)
        0x5A 1234).2.2.2.1 (by decide)).2.2.2⟩

/-! ## Timing and edges of the byte transfer -/

theorem pinOp_delays (op : PinOp) (s : State) :
    (eventsSince s (op.run s)).filter isDelay = op.delayEvent.toList := by
  cases op <;>
  simp [PinOp.run, PinOp.delayEvent, eventsSince, clk_low, clk_high, dio_low, dio_high,
    _delay_us, rmw_DDRF, rmw_PORTF, isDelay]

/-- The busy-waits in the trace of a sequence of pin operations are those of
its delay operations. -/
theorem pinOps_delays (ops : List PinOp) : ∀ s : State,
    (eventsSince s (runPinOps ops s)).filter isDelay = ops.filterMap PinOp.delayEvent := by
  induction ops with
  | nil => intro s; simp [runPinOps, eventsSince]
  | cons op ops ih =>
    intro s
    have hsplit := pinOps_events_append [op] ops s
    rw [List.singleton_append] at hsplit
    rw [hsplit, List.filter_append, ih]
    have h1 : (eventsSince s (runPinOps [op] s)).filter isDelay = op.delayEvent.toList :=
      pinOp_delays op s
    rw [h1]
    cases h : op.delayEvent <;> simp [List.filterMap_cons, h]

theorem bitOps_delays (bit : Bool) :
    (bitOps bit).filterMap PinOp.delayEvent = [Event.delay_us 10, Event.delay_us 10] := by
  cases bit <;> rfl

theorem writeByteOps_delays (b : Nat) :
    (writeByteOps b).filterMap PinOp.delayEvent = List.replicate 18 (Event.delay_us 10) := by
  have h : ∀ l : List Nat, (l.flatMap (fun i => bitOps (b.testBit i))).filterMap PinOp.delayEvent
      = List.replicate (2 * l.length) (Event.delay_us 10) := by
    intro l
    induction l with
    | nil => rfl
    | cons i l ih =>
      rw [List.flatMap_cons, List.filterMap_append, ih, bitOps_delays, List.length_cons,
        show 2 * (l.length + 1) = 2 * l.length + 1 + 1 by omega]
      rfl
  rw [writeByteOps, List.filterMap_append, h]
  rfl

theorem phaseScan_append (es1 : List Event) : ∀ (cur : Option Nat) (r : Regs) (es2 : List Event),
    phaseScan cur r (es1 ++ es2) =
      phaseScan cur r es1 ++ phaseScan (phaseCount cur r es1) (es1.foldl Event.apply r) es2 := by
  induction es1 with
  | nil => intro cur r es2; rfl
  | cons e es ih =>
    intro cur r es2
    simp only [List.cons_append, phaseScan, phaseCount, List.foldl_cons]
    by_cases hedge : clkEdge r (e.apply r) = true
    · simp only [hedge, if_true]
      cases cur with
      | none => exact ih _ _ _
      | some k => exact congrArg (List.cons k) (ih _ _ _)
    · simp only [hedge]
      cases e with
      | delay_us n => exact ih _ _ _
      | read x => exact ih _ _ _
      | write x v => exact ih _ _ _

theorem phaseCount_append (es1 : List Event) : ∀ (cur : Option Nat) (r : Regs) (es2 : List Event),
    phaseCount cur r (es1 ++ es2) =
      phaseCount (phaseCount cur r es1) (es1.foldl Event.apply r) es2 := by
  induction es1 with
  | nil => intro cur r es2; rfl
  | cons e es ih =>
    intro cur r es2
    simp only [List.cons_append, phaseCount, List.foldl_cons]
    by_cases hedge : clkEdge r (e.apply r) = true
    · simp only [hedge, if_true]
      exact ih _ _ _
    · simp only [hedge]
      cases e with
      | delay_us n => exact ih _ _ _
      | read x => exact ih _ _ _
      | write x v => exact ih _ _ _


theorem bitOps_phase (bit : Bool) (s : State) (cur : Option Nat) :
    phaseScan cur s.regs (eventsSince s (runPinOps (bitOps bit) s)) =
      (if released CLK_PIN s.regs = true then cur.toList ++ [10]
       else (cur.map (· + 10)).toList) ∧
    phaseCount cur s.regs (eventsSince s (runPinOps (bitOps bit) s)) = some 10 ∧
    released CLK_PIN (runPinOps (bitOps bit) s).regs = true := by
  cases bit <;> cases cur <;> cases h1 : s.DDRF.testBit 1 <;>
  simp [bitOps, runPinOps, PinOp.run, eventsSince, clk_low, clk_high, dio_low, dio_high,
    _delay_us, rmw_DDRF, rmw_PORTF, phaseScan, phaseCount, clkEdge, released, Event.apply,
    State.regs, testBit_orBit, testBit_andNotBit, CLK_PIN, DIO_PIN, PF0, PF1,
    -Nat.testBit_zero, h1]

theorem ackOps_phase (s : State) (h : released CLK_PIN s.regs = true) :
    phaseScan (some 10) s.regs (eventsSince s (runPinOps ackOps s)) = [10, 10, 10] ∧
    assertedLow CLK_PIN (runPinOps ackOps s).regs = true ∧
    released DIO_PIN (runPinOps ackOps s).regs = true := by
  simp only [released, State.regs, CLK_PIN, PF1, Bool.not_eq_true'] at h
  simp [ackOps, runPinOps, PinOp.run, eventsSince, clk_low, clk_high, dio_low, dio_high,
    _delay_us, rmw_DDRF, rmw_PORTF, phaseScan, phaseCount, clkEdge, released, assertedLow,
    Event.apply, State.regs, testBit_orBit, testBit_andNotBit, CLK_PIN, DIO_PIN, PF0, PF1,
    -Nat.testBit_zero, h]

/-- In steady state (clock released, one delay unit waited) every further data
bit adds a high phase and a low phase of one delay unit each. -/
theorem bits_phase (bits : List Bool) : ∀ s : State, released CLK_PIN s.regs = true →
    phaseScan (some 10) s.regs (eventsSince s (runPinOps (bits.flatMap bitOps) s)) =
      List.replicate (2 * bits.length) 10 ∧
    phaseCount (some 10) s.regs (eventsSince s (runPinOps (bits.flatMap bitOps) s)) = some 10 ∧
    released CLK_PIN (runPinOps (bits.flatMap bitOps) s).regs = true := by
  induction bits with
  | nil =>
    intro s h
    simp [runPinOps, eventsSince, phaseScan, phaseCount, h]
  | cons bit bits ih =>
    intro s h
    obtain ⟨a1, a2, a3⟩ := bitOps_phase bit s (some 10)
    obtain ⟨b1, b2, b3⟩ := ih (runPinOps (bitOps bit) s) a3
    rw [if_pos h] at a1
    rw [List.flatMap_cons, pinOps_events_append, phaseScan_append, phaseCount_append, a1, a2,
      pinOps_regs, b1, b2, runPinOps_append]
    refine ⟨?_, rfl, b3⟩
    rw [List.length_cons, show 2 * (bits.length + 1) = 2 * bits.length + 1 + 1 by omega]
    rfl

/-- Clock phases of the byte transfer: every phase between two clock edges
lasts one delay unit; there are 18 of them when the clock is released on
entry and 17 when it is already low (the first low phase then began before
the call). -/
theorem tm_writeByte_phases (b : Nat) (s : State) :
    clockPhases s.regs (eventsSince s (tm_writeByte b s)) =
      List.replicate (if released CLK_PIN s.regs = true then 18 else 17) 10 := by
  have hops : writeByteOps b = bitOps (b.testBit 0) ++
      (([1, 2, 3, 4, 5, 6, 7].map (fun i => b.testBit i)).flatMap bitOps ++ ackOps) := by
    simp [writeByteOps, List.range_succ, List.flatMap_cons, List.flatMap_append]
  obtain ⟨a1, a2, a3⟩ := bitOps_phase (b.testBit 0) s none
  obtain ⟨b1, b2, b3⟩ := bits_phase ([1, 2, 3, 4, 5, 6, 7].map (fun i => b.testBit i))
    (runPinOps (bitOps (b.testBit 0)) s) a3
  obtain ⟨c1, _, _⟩ := ackOps_phase _ b3
  rw [tm_writeByte_eq_ops, hops, clockPhases, pinOps_events_append, phaseScan_append, a1, a2,
    pinOps_regs, pinOps_events_append, phaseScan_append, b1, b2, pinOps_regs, c1]
  by_cases h : released CLK_PIN s.regs = true
  · simp only [h, if_true]; rfl
  · simp only [h]; rfl

theorem ackOps_final (s : State) :
    assertedLow CLK_PIN (runPinOps ackOps s).regs = true ∧
    released DIO_PIN (runPinOps ackOps s).regs = true := by
  simp [ackOps, runPinOps, PinOp.run, clk_low, clk_high, dio_high, _delay_us, rmw_DDRF,
    rmw_PORTF, released, assertedLow, State.regs, testBit_orBit, testBit_andNotBit, CLK_PIN,
    DIO_PIN, PF0, PF1, -Nat.testBit_zero]

/-- C14: `tm_writeByte b` is, from every state, exactly the sequence: for
i = 0..7 clock low, data released if bit i of b is 1 and low otherwise, wait
10 us, clock released, wait 10 us; then clock low, data released, wait 10 us,
clock released, wait 10 us, clock low.  Its trace has 9 clock rising edges and
18 busy-waits of 10 us, every clock phase between two clock edges lasts one
delay unit, and it ends with the clock asserted low and the data line
released. -/
theorem tm_writeByte_sequence (b : Nat) (s : State) :
    tm_writeByte b s = runPinOps (writeByteOps b) s ∧
    writeByteOps b =
      (List.range 8).flatMap (fun i =>
        [PinOp.clkLow, if b.testBit i then PinOp.dioHigh else PinOp.dioLow, PinOp.delay 10,
          PinOp.clkHigh, PinOp.delay 10]) ++
      [PinOp.clkLow, PinOp.dioHigh, PinOp.delay 10, PinOp.clkHigh, PinOp.delay 10,
        PinOp.clkLow] ∧
    (clockRisingStates s.regs (eventsSince s (tm_writeByte b s))).length = 9 ∧
    (eventsSince s (tm_writeByte b s)).filter isDelay = List.replicate 18 (Event.delay_us 10) ∧
    clockPhases s.regs (eventsSince s (tm_writeByte b s)) =
      List.replicate (if released CLK_PIN s.regs = true then 18 else 17) 10 ∧
    assertedLow CLK_PIN (tm_writeByte b s).regs = true ∧
    released DIO_PIN (tm_writeByte b s).regs = true := by
  refine ⟨tm_writeByte_eq_ops b s, rfl, ?_, ?_, tm_writeByte_phases b s, ?_⟩
  · obtain ⟨ack, h⟩ := tm_writeByte_rising b s
    have hlen := congrArg List.length h
    simpa using hlen
  · rw [tm_writeByte_eq_ops, pinOps_delays, writeByteOps_delays]
  · have hw : tm_writeByte b s = runPinOps ackOps (tm_writeByte_loop 8 b s).2 := rfl
    rw [hw]
    exact ackOps_final _

/-! ## START and STOP conditions of the display transaction -/

theorem busConditions_append (r : Regs) (es1 es2 : List Event) :
    busConditions r (es1 ++ es2) =
      busConditions r es1 ++ busConditions (es1.foldl Event.apply r) es2 := by
  simp [busConditions, transitions_append, List.filterMap_append]

theorem pinOps_conditions_append (a b : List PinOp) (s : State) :
    busConditions s.regs (eventsSince s (runPinOps (a ++ b) s)) =
      busConditions s.regs (eventsSince s (runPinOps a s)) ++
      busConditions (runPinOps a s).regs
        (eventsSince (runPinOps a s) (runPinOps b (runPinOps a s))) := by
  rw [pinOps_events_append, busConditions_append, pinOps_regs]

theorem bitOps_conditions (bit : Bool) (s : State) :
    busConditions s.regs (eventsSince s (runPinOps (bitOps bit) s)) = [] := by
  cases bit <;> cases h0 : s.DDRF.testBit 0 <;> cases h1 : s.DDRF.testBit 1 <;>
  simp [bitOps, runPinOps, PinOp.run, eventsSince, clk_low, clk_high, dio_low, dio_high,
    _delay_us, rmw_DDRF, rmw_PORTF, busConditions, transitions, dataEdge, isStart, isStop,
    released, Event.apply, State.regs, testBit_orBit, testBit_andNotBit, CLK_PIN, DIO_PIN,
    PF0, PF1, -Nat.testBit_zero, h0, h1]

theorem ackOps_conditions (s : State) :
    busConditions s.regs (eventsSince s (runPinOps ackOps s)) = [] := by
  cases h0 : s.DDRF.testBit 0 <;> cases h1 : s.DDRF.testBit 1 <;>
  simp [ackOps, runPinOps, PinOp.run, eventsSince, clk_low, clk_high, dio_low, dio_high,
    _delay_us, rmw_DDRF, rmw_PORTF, busConditions, transitions, dataEdge, isStart, isStop,
    released, Event.apply, State.regs, testBit_orBit, testBit_andNotBit, CLK_PIN, DIO_PIN,
    PF0, PF1, -Nat.testBit_zero, h0, h1]

/-- A concatenation of pieces that each raise no bus condition raises none. -/
theorem flatMap_conditions {α : Type} (g : α → List PinOp)
    (hg : ∀ (x : α) (s : State), busConditions s.regs (eventsSince s (runPinOps (g x) s)) = [])
    (l : List α) : ∀ s : State,
    busConditions s.regs (eventsSince s (runPinOps (l.flatMap g) s)) = [] := by
  induction l with
  | nil => intro s; simp [runPinOps, eventsSince, busConditions, transitions]
  | cons x l ih =>
    intro s
    rw [List.flatMap_cons, pinOps_conditions_append, hg, ih, List.append_nil]

theorem writeByteOps_conditions (b : Nat) (s : State) :
    busConditions s.regs (eventsSince s (runPinOps (writeByteOps b) s)) = [] := by
  rw [writeByteOps, pinOps_conditions_append,
    flatMap_conditions (fun i => bitOps (b.testBit i)) (fun i s => bitOps_conditions _ s),
    ackOps_conditions, List.append_nil]

theorem startOps_conditions (s : State)
    (h : (released CLK_PIN s.regs = true ∧ released DIO_PIN s.regs = true) ∨
      (released CLK_PIN s.regs = false ∧ released DIO_PIN s.regs = false)) :
    busConditions s.regs (eventsSince s (runPinOps startOps s)) = [BusCondition.start] := by
  simp only [released, State.regs, CLK_PIN, DIO_PIN, PF0, PF1, Bool.not_eq_true',
    Bool.not_eq_false'] at h
  rcases h with ⟨h1, h0⟩ | ⟨h1, h0⟩ <;>
  simp [startOps, runPinOps, PinOp.run, eventsSince, clk_low, clk_high, dio_low, dio_high,
    _delay_us, rmw_DDRF, rmw_PORTF, busConditions, transitions, dataEdge, isStart, isStop,
    released, Event.apply, State.regs, testBit_orBit, testBit_andNotBit, CLK_PIN, DIO_PIN,
    PF0, PF1, -Nat.testBit_zero, h0, h1]

theorem stopOps_conditions (s : State) :
    busConditions s.regs (eventsSince s (runPinOps stopOps s)) = [BusCondition.stop] ∧
    released CLK_PIN (runPinOps stopOps s).regs = true ∧
    released DIO_PIN (runPinOps stopOps s).regs = true := by
  cases h0 : s.DDRF.testBit 0 <;> cases h1 : s.DDRF.testBit 1 <;>
  simp [stopOps, runPinOps, PinOp.run, eventsSince, clk_low, clk_high, dio_low, dio_high,
    _delay_us, rmw_DDRF, rmw_PORTF, busConditions, transitions, dataEdge, isStart, isStop,
    released, Event.apply, State.regs, testBit_orBit, testBit_andNotBit, CLK_PIN, DIO_PIN,
    PF0, PF1, -Nat.testBit_zero, h0, h1]

/-- One START, bytes, STOP transaction entered with the bus idle or with both
lines held low shows one START and one STOP and leaves the bus idle. -/
theorem frameOps_conditions (bytes : List Nat) (s : State)
    (h : (released CLK_PIN s.regs = true ∧ released DIO_PIN s.regs = true) ∨
      (released CLK_PIN s.regs = false ∧ released DIO_PIN s.regs = false)) :
    busConditions s.regs (eventsSince s (runPinOps (frameOps bytes) s)) =
      [BusCondition.start, BusCondition.stop] ∧
    released CLK_PIN (runPinOps (frameOps bytes) s).regs = true ∧
    released DIO_PIN (runPinOps (frameOps bytes) s).regs = true := by
  obtain ⟨c1, c2, c3⟩ := stopOps_conditions
    (runPinOps (bytes.flatMap writeByteOps) (runPinOps startOps s))
  rw [frameOps, pinOps_conditions_append, pinOps_conditions_append, startOps_conditions s h,
    flatMap_conditions writeByteOps writeByteOps_conditions, runPinOps_append, runPinOps_append,
    c1]
  exact ⟨rfl, c2, c3⟩

theorem displayOps_conditions (n : Nat) (s : State)
    (h : (released CLK_PIN s.regs = true ∧ released DIO_PIN s.regs = true) ∨
      (released CLK_PIN s.regs = false ∧ released DIO_PIN s.regs = false)) :
    busConditions s.regs (eventsSince s (runPinOps (displayOps n) s)) =
      [BusCondition.start, BusCondition.stop, BusCondition.start, BusCondition.stop,
       BusCondition.start, BusCondition.stop] := by
  obtain ⟨a1, a2, a3⟩ := frameOps_conditions [0x40] s h
  obtain ⟨b1, b2, b3⟩ := frameOps_conditions
    [0xC0, SEGMENTS.getD (n / 1000 % 10) 0, SEGMENTS.getD (n / 100 % 10) 0,
      SEGMENTS.getD (n / 10 % 10) 0, SEGMENTS.getD (n % 10) 0]
    (runPinOps (frameOps [0x40]) s) (Or.inl ⟨a2, a3⟩)
  obtain ⟨c1, _, _⟩ := frameOps_conditions [0x8F] _ (Or.inl ⟨b2, b3⟩)
  rw [displayOps, pinOps_conditions_append, pinOps_conditions_append, a1, b1, runPinOps_append,
    c1]
  rfl

/-- What each classification of `dataEdge` says about the two lines. -/
theorem dataEdge_cases (t : Regs × Regs) :
    (dataEdge t = none ∧ dataChangeClockHigh t = false ∧
      (released DIO_PIN t.1 = released DIO_PIN t.2 ∨
        (released CLK_PIN t.1 = false ∧ released CLK_PIN t.2 = false))) ∨
    (dataEdge t = some BusCondition.start ∧ dataChangeClockHigh t = true ∧ isStart t = true) ∨
    (dataEdge t = some BusCondition.stop ∧ dataChangeClockHigh t = true ∧ isStop t = true) ∨
    (dataEdge t = some BusCondition.glitch ∧
      released DIO_PIN t.1 ≠ released DIO_PIN t.2) := by
  unfold dataEdge dataChangeClockHigh isStart isStop
  cases released DIO_PIN t.1 <;> cases released DIO_PIN t.2 <;>
  cases released CLK_PIN t.1 <;> cases released CLK_PIN t.2 <;> simp

theorem count_dataChangeClockHigh (l : List (Regs × Regs))
    (h : BusCondition.glitch ∉ l.filterMap dataEdge) :
    (l.filter dataChangeClockHigh).length = (l.filterMap dataEdge).length := by
  induction l with
  | nil => rfl
  | cons t l ih =>
    rcases dataEdge_cases t with ⟨a, b, _⟩ | ⟨a, b, _⟩ | ⟨a, b, _⟩ | ⟨a, _⟩
    · rw [List.filterMap_cons_none a] at h ⊢
      rw [List.filter_cons_of_neg (by simp [b])]
      exact ih h
    · rw [List.filterMap_cons_some a] at h ⊢
      rw [List.filter_cons_of_pos b, List.length_cons, List.length_cons,
        ih (fun hm => h (List.mem_cons_of_mem _ hm))]
    · rw [List.filterMap_cons_some a] at h ⊢
      rw [List.filter_cons_of_pos b, List.length_cons, List.length_cons,
        ih (fun hm => h (List.mem_cons_of_mem _ hm))]
    · rw [List.filterMap_cons_some a] at h
      exact absurd (List.mem_cons_self _ _) h

/-- C15: entered with the bus idle (both lines released) or with both lines
held low as `main` sets them up, `tm_displayDigits n` completes, and in its
trace the changes of the data line that are not made under a clock held low
are exactly START, STOP, START, STOP, START, STOP; the data line changes six
times while the clock is released; every change of the data line is a START,
a STOP, or happens with the clock asserted low before and after. -/
theorem no_spurious_start_stop (n : Nat) (s : State)
    (h : (released CLK_PIN s.regs = true ∧ released DIO_PIN s.regs = true) ∨
      (released CLK_PIN s.regs = false ∧ released DIO_PIN s.regs = false)) :
    ∃ t, tm_displayDigits n s = some t ∧
      busConditions s.regs (eventsSince s t) =
        [BusCondition.start, BusCondition.stop, BusCondition.start, BusCondition.stop,
         BusCondition.start, BusCondition.stop] ∧
      ((transitions s.regs (eventsSince s t)).filter dataChangeClockHigh).length = 6 ∧
      ∀ tr ∈ transitions s.regs (eventsSince s t),
        released DIO_PIN tr.1 ≠ released DIO_PIN tr.2 →
          isStart tr = true ∨ isStop tr = true ∨
          (released CLK_PIN tr.1 = false ∧ released CLK_PIN tr.2 = false) := by
  have hbc := displayOps_conditions n s h
  have hbc2 : (transitions s.regs (eventsSince s (runPinOps (displayOps n) s))).filterMap dataEdge
      = [BusCondition.start, BusCondition.stop, BusCondition.start, BusCondition.stop,
         BusCondition.start, BusCondition.stop] := hbc
  refine ⟨runPinOps (displayOps n) s, tm_displayDigits_eq_ops n s, hbc, ?_, ?_⟩
  · rw [count_dataChangeClockHigh _ (by rw [hbc2]; decide), hbc2]
    rfl
  · intro tr htr hchange
    rcases dataEdge_cases tr with ⟨_, _, c⟩ | ⟨_, _, c⟩ | ⟨_, _, c⟩ | ⟨a, _⟩
    · rcases c with c | c
      · exact absurd c hchange
      · exact Or.inr (Or.inr c)
    · exact Or.inl c
    · exact Or.inr (Or.inl c)
    · have hmem : BusCondition.glitch ∈
          (transitions s.regs (eventsSince s (runPinOps (displayOps n) s))).filterMap dataEdge :=
        List.mem_filterMap.2 ⟨tr, htr, a⟩
      rw [hbc2] at hmem
      exact absurd hmem (by decide)

/-- Witness of C15 from the state `main` sets up (both lines held low) and
from the power-on state (both lines released). -/
theorem no_spurious_start_stop_witness :
    ((released CLK_PIN (main_init reset).regs = false ∧
        released DIO_PIN (main_init reset).regs = false) ∧
      (released CLK_PIN reset.regs = true ∧ released DIO_PIN reset.regs = true)) ∧
    (∃ t, tm_displayDigits 1234 (main_init reset) = some t ∧
      busConditions (main_init reset).regs (eventsSince (main_init reset) t) =
        [BusCondition.start, BusCondition.stop, BusCondition.start, BusCondition.stop,
         BusCondition.start, BusCondition.stop] ∧
      ((transitions (main_init reset).regs (eventsSince (main_init reset) t)).filter
        dataChangeClockHigh).length = 6 ∧
      ∀ tr ∈ transitions (main_init reset).regs (eventsSince (main_init reset) t),
        released DIO_PIN tr.1 ≠ released DIO_PIN tr.2 →
          isStart tr = true ∨ isStop tr = true ∨
          (released CLK_PIN tr.1 = false ∧ released CLK_PIN tr.2 = false)) ∧
    (∃ t, tm_displayDigits 8888 reset = some t ∧
      busConditions reset.regs (eventsSince reset t) =
        [BusCondition.start, BusCondition.stop, BusCondition.start, BusCondition.stop,
         BusCondition.start, BusCondition.stop] ∧
      ((transitions reset.regs (eventsSince reset t)).filter dataChangeClockHigh).length = 6 ∧
      ∀ tr ∈ transitions reset.regs (eventsSince reset t),
        released DIO_PIN tr.1 ≠ released DIO_PIN tr.2 →
          isStart tr = true ∨ isStop tr = true ∨
          (released CLK_PIN tr.1 = false ∧ released CLK_PIN tr.2 = false)) :=
  ⟨by decide,
   no_spurious_start_stop 1234 (main_init reset) (Or.inr (by decide)),
   no_spurious_start_stop 8888 reset (Or.inl (by decide))⟩

/-! ## What the display transaction puts on the wire -/

theorem latchedBits_append (r : Regs) (es1 es2 : List Event) :
    latchedBits r (es1 ++ es2) =
      latchedBits r es1 ++ latchedBits (es1.foldl Event.apply r) es2 := by
  simp [latchedBits, clockRisingStates_append]

theorem pinOps_latched_append (a b : List PinOp) (s : State) :
    latchedBits s.regs (eventsSince s (runPinOps (a ++ b) s)) =
      latchedBits s.regs (eventsSince s (runPinOps a s)) ++
      latchedBits (runPinOps a s).regs
        (eventsSince (runPinOps a s) (runPinOps b (runPinOps a s))) := by
  rw [pinOps_events_append, latchedBits_append, pinOps_regs]

theorem writeByteOps_latched (b : Nat) (s : State) :
    ∃ a, latchedBits s.regs (eventsSince s (runPinOps (writeByteOps b) s)) = bitsOf b ++ [a] := by
  obtain ⟨ack, h⟩ := tm_writeByte_rising b s
  rw [tm_writeByte_eq_ops] at h
  refine ⟨ack.1, ?_⟩
  have h2 := congrArg (List.map Prod.fst) h
  simp only [List.map_map, List.map_append, List.map_cons, List.map_nil] at h2
  exact h2

theorem bitsOf_length (b : Nat) : (bitsOf b).length = 8 := by simp [bitsOf]

theorem byte_head_inj (p q : Nat) (a c : Bool) (l1 l2 : List Bool)
    (h : (bitsOf p ++ [a]) ++ l1 = (bitsOf q ++ [c]) ++ l2) : bitsOf p = bitsOf q ∧ l1 = l2 := by
  have h1 := List.append_inj h (by simp [bitsOf_length])
  have h2 := List.append_inj h1.1 (by simp [bitsOf_length])
  exact ⟨h2.1, h1.2⟩

theorem dataOps_latched (p0 p1 p2 p3 : Nat) (s : State) :
    ∃ a0 a1 a2 a3, latchedBits s.regs (eventsSince s (runPinOps (dataOps p0 p1 p2 p3) s)) =
      (bitsOf p0 ++ [a0]) ++ ((bitsOf p1 ++ [a1]) ++ ((bitsOf p2 ++ [a2]) ++ (bitsOf p3 ++ [a3]))) := by
  obtain ⟨a0, h0⟩ := writeByteOps_latched p0 s
  obtain ⟨a1, h1⟩ := writeByteOps_latched p1 (runPinOps (writeByteOps p0) s)
  obtain ⟨a2, h2⟩ := writeByteOps_latched p2
    (runPinOps (writeByteOps p1) (runPinOps (writeByteOps p0) s))
  obtain ⟨a3, h3⟩ := writeByteOps_latched p3
    (runPinOps (writeByteOps p2) (runPinOps (writeByteOps p1) (runPinOps (writeByteOps p0) s)))
  refine ⟨a0, a1, a2, a3, ?_⟩
  rw [dataOps, pinOps_latched_append, h0, pinOps_latched_append, h1, pinOps_latched_append, h2,
    h3]

theorem seg_bits_inj (d e : Nat) (hd : d < 10) (he : e < 10)
    (h : bitsOf (SEGMENTS.getD d 0) = bitsOf (SEGMENTS.getD e 0)) : d = e := by
  interval_cases d <;> interval_cases e <;> first | rfl | (exact absurd h (by decide))

theorem displayOps_split (n : Nat) :
    displayOps n = (frameOps [0x40] ++ (startOps ++ writeByteOps 0xC0)) ++
      (dataOps (SEGMENTS.getD (n / 1000 % 10) 0) (SEGMENTS.getD (n / 100 % 10) 0)
          (SEGMENTS.getD (n / 10 % 10) 0) (SEGMENTS.getD (n % 10) 0) ++
        (stopOps ++ frameOps [0x8F])) := by
  simp [displayOps, frameOps, dataOps, List.flatMap_cons, List.append_assoc]

/-- Latched bits of the display transaction: those up to the address command,
the 36 of the four data bytes, and the rest. -/
theorem displayOps_latched (n : Nat) (s : State) :
    ∃ a0 a1 a2 a3 rest,
      latchedBits s.regs (eventsSince s (runPinOps (displayOps n) s)) =
        latchedBits s.regs
          (eventsSince s (runPinOps (frameOps [0x40] ++ (startOps ++ writeByteOps 0xC0)) s)) ++
        (((bitsOf (SEGMENTS.getD (n / 1000 % 10) 0) ++ [a0]) ++
          ((bitsOf (SEGMENTS.getD (n / 100 % 10) 0) ++ [a1]) ++
          ((bitsOf (SEGMENTS.getD (n / 10 % 10) 0) ++ [a2]) ++
          (bitsOf (SEGMENTS.getD (n % 10) 0) ++ [a3])))) ++ rest) := by
  obtain ⟨a0, a1, a2, a3, ha⟩ := dataOps_latched (SEGMENTS.getD (n / 1000 % 10) 0)
    (SEGMENTS.getD (n / 100 % 10) 0) (SEGMENTS.getD (n / 10 % 10) 0) (SEGMENTS.getD (n % 10) 0)
    (runPinOps (frameOps [0x40] ++ (startOps ++ writeByteOps 0xC0)) s)
  refine ⟨a0, a1, a2, a3,
    latchedBits
      (runPinOps (dataOps (SEGMENTS.getD (n / 1000 % 10) 0) (SEGMENTS.getD (n / 100 % 10) 0)
        (SEGMENTS.getD (n / 10 % 10) 0) (SEGMENTS.getD (n % 10) 0))
        (runPinOps (frameOps [0x40] ++ (startOps ++ writeByteOps 0xC0)) s)).regs
      (eventsSince
        (runPinOps (dataOps (SEGMENTS.getD (n / 1000 % 10) 0) (SEGMENTS.getD (n / 100 % 10) 0)
          (SEGMENTS.getD (n / 10 % 10) 0) (SEGMENTS.getD (n % 10) 0))
          (runPinOps (frameOps [0x40] ++ (startOps ++ writeByteOps 0xC0)) s))
        (runPinOps (stopOps ++ frameOps [0x8F])
          (runPinOps (dataOps (SEGMENTS.getD (n / 1000 % 10) 0) (SEGMENTS.getD (n / 100 % 10) 0)
            (SEGMENTS.getD (n / 10 % 10) 0) (SEGMENTS.getD (n % 10) 0))
            (runPinOps (frameOps [0x40] ++ (startOps ++ writeByteOps 0xC0)) s)))), ?_⟩
  rw [displayOps_split,
    pinOps_latched_append (frameOps [0x40] ++ (startOps ++ writeByteOps 0xC0)) _ s,
    pinOps_latched_append (dataOps _ _ _ _) (stopOps ++ frameOps [0x8F]) _, ha]

/-- Two display transactions run from the same state that put the same bits on
the data line at the clock rising edges show the same number. -/
theorem displayOps_latched_inj (m n : Nat) (hm : m ≤ 9999) (hn : n ≤ 9999) (s : State)
    (h : latchedBits s.regs (eventsSince s (runPinOps (displayOps m) s)) =
      latchedBits s.regs (eventsSince s (runPinOps (displayOps n) s))) : m = n := by
  obtain ⟨a0, a1, a2, a3, ra, ha⟩ := displayOps_latched m s
  obtain ⟨c0, c1, c2, c3, rc, hc⟩ := displayOps_latched n s
  rw [ha, hc] at h
  have h1 := List.append_cancel_left h
  simp only [List.append_assoc] at h1
  have e0 := byte_head_inj _ _ _ _ _ _ (by simpa only [List.append_assoc] using h1)
  have e1 := byte_head_inj _ _ _ _ _ _ (by simpa only [List.append_assoc] using e0.2)
  have e2 := byte_head_inj _ _ _ _ _ _ (by simpa only [List.append_assoc] using e1.2)
  have e3 := byte_head_inj _ _ _ _ _ _ (by simpa only [List.append_assoc] using e2.2)
  have d0e := seg_bits_inj _ _ (Nat.mod_lt _ (by decide)) (Nat.mod_lt _ (by decide)) e0.1
  have d1e := seg_bits_inj _ _ (Nat.mod_lt _ (by decide)) (Nat.mod_lt _ (by decide)) e1.1
  have d2e := seg_bits_inj _ _ (Nat.mod_lt _ (by decide)) (Nat.mod_lt _ (by decide)) e2.1
  have d3e := seg_bits_inj _ _ (Nat.mod_lt _ (by decide)) (Nat.mod_lt _ (by decide)) e3.1
  omega

/-- C18: the table has exactly 10 entries and two different digits have
different entries; hence for m, n in 0..9999 and every entry state:
`tm_displayDigits m` completes as the transaction whose four data bytes are the
table entries of the digits of m; if `tm_displayDigits m` and
`tm_displayDigits n` are the transaction with the same four data bytes, or end
in the same state and trace, or merely put the same bits on the data line at
the clock rising edges, then m = n; and the four entries looked up for m equal
those for n only if m = n. -/
theorem SEGMENTS_injective (d e m n : Nat) (hd : d < 10) (he : e < 10) (hde : d ≠ e)
    (hm : m ≤ 9999) (hn : n ≤ 9999) (s : State) :
    SEGMENTS.length = 10 ∧ SEGMENTS[d]? ≠ SEGMENTS[e]? ∧
    tm_displayDigits m s = runOps (transactionCalls (SEGMENTS.getD (d0 m) 0)
      (SEGMENTS.getD (d1 m) 0) (SEGMENTS.getD (d2 m) 0) (SEGMENTS.getD (d3 m) 0)) s ∧
    (∀ a0 a1 a2 a3 : Nat,
      tm_displayDigits m s = runOps (transactionCalls a0 a1 a2 a3) s →
      tm_displayDigits n s = runOps (transactionCalls a0 a1 a2 a3) s → m = n) ∧
    (∃ t u, tm_displayDigits m s = some t ∧ tm_displayDigits n s = some u ∧
      (t = u → m = n) ∧
      (latchedBits s.regs (eventsSince s t) = latchedBits s.regs (eventsSince s u) → m = n)) ∧
    ([SEGMENTS[d0 m]?, SEGMENTS[d1 m]?, SEGMENTS[d2 m]?, SEGMENTS[d3 m]?] =
      [SEGMENTS[d0 n]?, SEGMENTS[d1 n]?, SEGMENTS[d2 n]?, SEGMENTS[d3 n]?] → m = n) := by
  have hinj := displayOps_latched_inj m n hm hn s
  have hsame : runPinOps (displayOps m) s = runPinOps (displayOps n) s → m = n := by
    intro h
    apply hinj
    rw [h]
  refine ⟨rfl, fun h => hde (SEGMENTS_inj d e hd he h), ?_, ?_, ?_, ?_⟩
  · rw [tm_displayDigits_eq, d0_eq, d1_eq, d2_eq, d3_eq]
    rfl
  · intro a0 a1 a2 a3 h1 h2
    have h3 : tm_displayDigits m s = tm_displayDigits n s := h1.trans h2.symm
    rw [tm_displayDigits_eq_ops, tm_displayDigits_eq_ops] at h3
    exact hsame (Option.some.inj h3)
  · exact ⟨_, _, tm_displayDigits_eq_ops m s, tm_displayDigits_eq_ops n s, hsame, hinj⟩
  · intro h
    simp only [List.cons.injEq, and_true] at h
    obtain ⟨b0, b1, b2, b3⟩ := h
    rw [d0_eq, d0_eq] at b0
    rw [d1_eq, d1_eq] at b1
    rw [d2_eq, d2_eq] at b2
    rw [d3_eq, d3_eq] at b3
    have e0 := SEGMENTS_inj _ _ (Nat.mod_lt _ (by decide)) (Nat.mod_lt _ (by decide)) b0
    have e1 := SEGMENTS_inj _ _ (Nat.mod_lt _ (by decide)) (Nat.mod_lt _ (by decide)) b1
    have e2 := SEGMENTS_inj _ _ (Nat.mod_lt _ (by decide)) (Nat.mod_lt _ (by decide)) b2
    have e3 := SEGMENTS_inj _ _ (Nat.mod_lt _ (by decide)) (Nat.mod_lt _ (by decide)) b3
    omega

/-- Witness of C18: the look-alike digits 1 and 7 have different entries; from
the state `main` sets up, 1234 is sent as the patterns of 1, 2, 3, 4, and 1234
and 1243 cannot be the same transaction. -/
theorem SEGMENTS_injective_witness :
    ((1 < 10 ∧ 7 < 10 ∧ 1 ≠ 7 ∧ 1234 ≤ 9999 ∧ 1243 ≤ 9999) ∧
      [SEGMENTS[d0 1234]?, SEGMENTS[d1 1234]?, SEGMENTS[d2 1234]?, SEGMENTS[d3 1234]?] ≠
        [SEGMENTS[d0 1243]?, SEGMENTS[d1 1243]?, SEGMENTS[d2 1243]?, SEGMENTS[d3 1243]?]) ∧
    (SEGMENTS.length = 10 ∧ SEGMENTS[1]? ≠ SEGMENTS[7]?) ∧
    tm_displayDigits 1234 (main_init reset) =
      runOps (transactionCalls 0b00000110 0b01011011 0b01001111 0b01100110) (main_init reset) ∧
    (∀ a0 a1 a2 a3 : Nat,
      tm_displayDigits 1234 (main_init reset) =
        runOps (transactionCalls a0 a1 a2 a3) (main_init reset) →
      tm_displayDigits 1243 (main_init reset) =
        runOps (transactionCalls a0 a1 a2 a3) (main_init reset) → 1234 = 1243) ∧
    (∃ t u, tm_displayDigits 1234 (main_init reset) = some t ∧
      tm_displayDigits 1243 (main_init reset) = some u ∧
      (t = u → 1234 = 1243) ∧
      (latchedBits (main_init reset).regs (eventsSince (main_init reset) t) =
        latchedBits (main_init reset).regs (eventsSince (main_init reset) u) → 1234 = 1243)) :=
  ⟨by decide,
   ⟨(SEGMENTS_injective 1 7 1234 1243 (by decide) (by decide) (by decide) (by decide)
      (by decide) (main_init reset)).1,
    (SEGMENTS_injective 1 7 1234 1243 (by decide) (by decide) (by decide) (by decide)
      (by decide) (main_init reset)).2.1⟩,
   (SEGMENTS_injective 1 7 1234 1243 (by decide) (by decide) (by decide) (by decide)
      (by decide) (main_init reset)).2.2.1,
   (SEGMENTS_injective 1 7 1234 1243 (by decide) (by decide) (by decide) (by decide)
      (by decide) (main_init reset)).2.2.2.1,
   (SEGMENTS_injective 1 7 1234 1243 (by decide) (by decide) (by decide) (by decide)
      (by decide) (main_init reset)).2.2.2.2.1⟩

end TM1637
